import Mathlib

/-!
Sphere marching and signed distance functions.

A shallow embedding of the renderer core of the repository:

* `src/pbrt-Perlin Noise/raymarcher.cpp` (`RayMarcher::Intersect`, `RayMarcher::sdf`,
  `RayMarcher::GetNormalRM`),
* `src/pbrt-Perlin Noise/waterpool.cpp` (`WaterPool::Intersect`, `WaterPool::sdf`,
  `WaterPool::GetNormalRM`),
* `src/Midterm/ofApp.h` (`Sphere::sdf`, `Torus::sdf`, `ofApp::opRep`,
  `SceneObject::getMatrix`, `getPosition`, `setPosition`, `Light`).

`Float` / `float` values are modelled as elements of an ordered field `F` with exact
arithmetic (no rounding, no NaN, no infinities).  Library functions that are not field
operations (`std::sqrt`, `cos`, `sin`, the pbrt `Noise`, `glm::inverse`) are parameters
of the definitions, so every definition is executable over a computable field such as
`ℚ`; the theorems instantiate them with `Real.sqrt`, `Real.cos`, ... where their
properties matter.
-/

namespace Render

/-- A triple of coordinates: pbrt `Vector3f` / `Point3f` and glm `vec3`. -/
structure Vec3 (F : Type) where
  x : F
  y : F
  z : F

namespace Vec3

variable {F : Type} [Field F]

/-- Componentwise sum (`Point3f + Vector3f`, `vec3 + vec3`). -/
def add (a b : Vec3 F) : Vec3 F := ⟨a.x + b.x, a.y + b.y, a.z + b.z⟩

/-- Componentwise difference (`Point3f - Point3f`, `vec3 - vec3`). -/
def sub (a b : Vec3 F) : Vec3 F := ⟨a.x - b.x, a.y - b.y, a.z - b.z⟩

/-- Vector times scalar (pbrt `Vector3f::operator*(Float)`). -/
def scale (v : Vec3 F) (s : F) : Vec3 F := ⟨v.x * s, v.y * s, v.z * s⟩

/-- Scalar times vector (pbrt `operator*(Float, Point3f)`). -/
def lscale (s : F) (v : Vec3 F) : Vec3 F := ⟨s * v.x, s * v.y, s * v.z⟩

/-- Dot product. -/
def dot (a b : Vec3 F) : F := a.x * b.x + a.y * b.y + a.z * b.z

/-- pbrt `Vector3f::LengthSquared`: `x * x + y * y + z * z`. -/
def LengthSquared (v : Vec3 F) : F := v.x * v.x + v.y * v.y + v.z * v.z

/-- pbrt `Vector3f::Length`: `std::sqrt(LengthSquared())`; also `glm::length`. -/
def Length (sqrt : F → F) (v : Vec3 F) : F := sqrt (LengthSquared v)

/-- pbrt `Normalize(v)`: `v / v.Length()`, where `operator/(Float f)` multiplies each
component by `inv = 1 / f`. -/
def Normalize (sqrt : F → F) (v : Vec3 F) : Vec3 F :=
  let inv := 1 / Length sqrt v
  ⟨v.x * inv, v.y * inv, v.z * inv⟩

end Vec3

/-- A ray: pbrt `Ray` with origin `o` and direction `d`. -/
structure Ray (F : Type) where
  o : Vec3 F
  d : Vec3 F

/-- The C cast `(int)x` of a float: truncation toward zero. -/
def toInt {F : Type} [LinearOrderedField F] [FloorRing F] (x : F) : Int :=
  if 0 ≤ x then Int.floor x else Int.ceil x

/-- What the marching loop leaves behind: the flag `hit`, the final value of the local
`point`, and the number of times the loop body evaluated `sdf` (a ghost counter). -/
structure MarchState (F : Type) where
  hit : Bool
  point : Vec3 F
  evals : Nat

/-- The `for (int i = 0; i < (int)maxray; i++)` loop of `Intersect`
(raymarcher.cpp 75-92, waterpool.cpp 72-88), with `n` the number of iterations that
remain, `point` the current point and `evals` the sdf evaluations made so far. -/
def marchLoop {F : Type} [LinearOrderedField F] (sdf : Vec3 F → F) (dir : Vec3 F)
    (distthres maxdist : F) : Nat → Vec3 F → Nat → MarchState F
  | 0, point, evals => ⟨false, point, evals⟩
  | n + 1, point, evals =>
    let dist := sdf point
    if dist < distthres then ⟨true, point, evals + 1⟩
    else if dist > maxdist then ⟨false, point, evals + 1⟩
    else marchLoop sdf dir distthres maxdist n (Vec3.add point (Vec3.scale dir dist)) (evals + 1)

/-- The marching part of `RayMarcher::Intersect` and `WaterPool::Intersect` for the
object whose distance function is `sdf` and whose members are `maxray`, `distthres`,
`maxdist`: normalise the direction, run the loop from the ray origin.  The two source
bodies are the same text (they differ in the default normal handed to `GetNormalRM`,
which does not touch `hit` or `point`).  The returned `hit` is the function's return
value, `point` the surface point it reports. -/
def Intersect {F : Type} [LinearOrderedField F] [FloorRing F] (sqrt : F → F)
    (sdf : Vec3 F → F) (maxray distthres maxdist : F) (r : Ray F) : MarchState F :=
  let dir := Vec3.Normalize sqrt r.d
  marchLoop sdf dir distthres maxdist (toInt maxray).toNat r.o 0

/-- The points of the claim: `p_0` is the start and `p_{i+1} = p_i + dir * sdf(p_i)`. -/
def marchPoint {F : Type} [Field F] (sdf : Vec3 F → F) (dir : Vec3 F) (o : Vec3 F) :
    Nat → Vec3 F
  | 0 => o
  | i + 1 =>
    Vec3.add (marchPoint sdf dir o i) (Vec3.scale dir (sdf (marchPoint sdf dir o i)))

/-- The distances of the claim: `d_i = sdf(p_i)`. -/
def marchDist {F : Type} [Field F] (sdf : Vec3 F → F) (dir : Vec3 F) (o : Vec3 F)
    (i : Nat) : F :=
  sdf (marchPoint sdf dir o i)

/-- What `GetNormalRM` does: the vector it returns, and whether it took the fallback
branch (the one that prints `defaultNormal ` and returns the default normal). -/
structure NormalResult (F : Type) where
  normal : Vec3 F
  usedDefault : Bool

/-- Generic `GetNormalRM` (raymarcher.cpp 131-148, waterpool.cpp 133-150) for the
object whose distance function is `sdf`: one-sided differences of the sdf along the
axes, normalised; the default normal when the difference vector has length zero. -/
def GetNormalRM {F : Type} [LinearOrderedField F] (sqrt : F → F) (sdf : Vec3 F → F)
    (p : Vec3 F) (eps : F) (defaultNormal : Vec3 F) : NormalResult F :=
  let dp := sdf p
  let n : Vec3 F :=
    ⟨dp - sdf ⟨p.x - eps, p.y, p.z⟩,
     dp - sdf ⟨p.x, p.y - eps, p.z⟩,
     dp - sdf ⟨p.x, p.y, p.z - eps⟩⟩
  if Vec3.Length sqrt n = 0 then ⟨defaultNormal, true⟩ else ⟨Vec3.Normalize sqrt n, false⟩

/-- The difference vector `n` that `GetNormalRM` builds before normalising: the `g`
of the specification. -/
def normalDiff {F : Type} [Field F] (sdf : Vec3 F → F) (p : Vec3 F) (eps : F) : Vec3 F :=
  ⟨sdf p - sdf ⟨p.x - eps, p.y, p.z⟩,
   sdf p - sdf ⟨p.x, p.y - eps, p.z⟩,
   sdf p - sdf ⟨p.x, p.y, p.z - eps⟩⟩

/-- The members of the pbrt shape `RayMarcher` (the arguments of its constructor in
`CreateRayMarcherShape`, raymarcher.cpp 165-179). -/
structure RayMarcher (F : Type) where
  radius : F
  zMin : F
  zMax : F
  phiMax : F
  maxray : F
  distthres : F
  maxdist : F
  eps : F

namespace RayMarcher

variable {F : Type} [LinearOrderedField F]

/-- `RayMarcher::sdf` (raymarcher.cpp 122-126). -/
def sdf (sqrt : F → F) (s : RayMarcher F) (pos : Vec3 F) : F :=
  let origin : Vec3 F := ⟨0, 0, 0⟩
  let distance := Vec3.sub pos origin
  Vec3.Length sqrt distance - s.radius

/-- `RayMarcher::Intersect` (raymarcher.cpp 62-118): the shared marching body run on
the shape's own `sdf` and members. -/
def Intersect [FloorRing F] (sqrt : F → F) (s : RayMarcher F) (r : Ray F) : MarchState F :=
  Render.Intersect sqrt (sdf sqrt s) s.maxray s.distthres s.maxdist r

/-- `RayMarcher::GetNormalRM` (raymarcher.cpp 131-148). -/
def GetNormalRM (sqrt : F → F) (s : RayMarcher F) (p : Vec3 F) (eps : F)
    (defaultNormal : Vec3 F) : NormalResult F :=
  Render.GetNormalRM sqrt (sdf sqrt s) p eps defaultNormal

/-- The configuration `CreateRayMarcherShape` builds when the scene file names no
parameter: radius 1, zmin -1, zmax 1, phimax 360, maxray 1000, distthres 0.01,
maxdist 100, eps 0.01 (raymarcher.cpp 169-176). -/
def default : RayMarcher F :=
  { radius := 1, zMin := -1, zMax := 1, phiMax := 360, maxray := 1000,
    distthres := 1 / 100, maxdist := 100, eps := 1 / 100 }

end RayMarcher

/-- The members of the pbrt shape `WaterPool` (the arguments of its constructor in
`CreateWaterPoolShape`, waterpool.cpp 167-184). -/
structure WaterPool (F : Type) where
  radius : F
  zMin : F
  zMax : F
  phiMax : F
  maxray : F
  distthres : F
  maxdist : F
  eps : F
  amplitude : F
  frequency : F
  octave : Int

namespace WaterPool

variable {F : Type} [LinearOrderedField F]

/-- The octave loop of `WaterPool::sdf` (waterpool.cpp 120-125), `n` iterations to go,
on the locals `noise`, `ampl`, `freq`. -/
def noiseLoop (Noise : Vec3 F → F) (pos : Vec3 F) : Nat → F → F → F → F
  | 0, noise, _, _ => noise
  | n + 1, noise, ampl, freq =>
    noiseLoop Noise pos n (noise + ampl / 2 * Noise (Vec3.lscale freq pos)) (ampl / 2)
      (freq * 2)

/-- `WaterPool::sdf` (waterpool.cpp 116-128); `Noise` is pbrt's noise function. -/
def sdf (Noise : Vec3 F → F) (w : WaterPool F) (pos : Vec3 F) : F :=
  let noise : F := 0
  let located : Vec3 F := ⟨0, -2, 0⟩
  let ampl := w.amplitude
  let freq := w.frequency
  let noise := noiseLoop Noise pos w.octave.toNat noise ampl freq
  pos.y - (located.y + noise)

/-- `WaterPool::Intersect` (waterpool.cpp 62-112): the shared marching body run on the
shape's own `sdf` and members. -/
def Intersect [FloorRing F] (sqrt : F → F) (Noise : Vec3 F → F) (w : WaterPool F)
    (r : Ray F) : MarchState F :=
  Render.Intersect sqrt (sdf Noise w) w.maxray w.distthres w.maxdist r

/-- `WaterPool::GetNormalRM` (waterpool.cpp 133-150). -/
def GetNormalRM (sqrt : F → F) (Noise : Vec3 F → F) (w : WaterPool F) (p : Vec3 F)
    (eps : F) (defaultNormal : Vec3 F) : NormalResult F :=
  Render.GetNormalRM sqrt (sdf Noise w) p eps defaultNormal

end WaterPool

/-- A pair of coordinates: glm `vec2` / `ofVec2f`. -/
structure Vec2 (F : Type) where
  x : F
  y : F

/-- `glm::length` of a `vec2`. -/
def Vec2.length {F : Type} [Field F] (sqrt : F → F) (v : Vec2 F) : F :=
  sqrt (v.x * v.x + v.y * v.y)

/-- The data members of `SceneObject` (ofApp.h 71-74 and 93-99) that the distance
functions and transforms read, with the defaults of the class left to the caller. -/
structure SceneObject (F : Type) where
  position : Vec3 F
  rotation : Vec3 F
  scale : Vec3 F
  pivot : Vec3 F
  radius : F
  intensity : F
  coneRad : F
  t : Vec2 F
  angleRotate : F

/-- The constructor `Sphere(p, r)` (ofApp.h 107): position and radius as given, the
other members at the defaults of `SceneObject` (ofApp.h 71-74, 94-99). -/
def Sphere.new {F : Type} [Field F] (p : Vec3 F) (r : F) : SceneObject F :=
  { position := p, rotation := ⟨1, 0, 0⟩, scale := ⟨1, 1, 1⟩, pivot := ⟨0, 0, 0⟩,
    radius := r, intensity := 75, coneRad := 3 / 4, t := ⟨0, 0⟩, angleRotate := 60 }

/-- The constructor `Torus(p, rt)` (ofApp.h 156): position and `t` as given, the other
members at the defaults of `SceneObject` (ofApp.h 71-74, 94-99). -/
def Torus.new {F : Type} [Field F] (p : Vec3 F) (rt : Vec2 F) : SceneObject F :=
  { position := p, rotation := ⟨1, 0, 0⟩, scale := ⟨1, 1, 1⟩, pivot := ⟨0, 0, 0⟩,
    radius := 1, intensity := 75, coneRad := 3 / 4, t := rt, angleRotate := 60 }

/-- C `fmod(x, y)`: `x - n * y` where `n` is `x / y` truncated toward zero, so the
result has the sign of `x`. -/
def fmod {F : Type} [LinearOrderedField F] [FloorRing F] (x y : F) : F :=
  x - (toInt (x / y) : F) * y

/-- `Sphere::sdf` (ofApp.h 125-131). -/
def Sphere.sdf {F : Type} [Field F] (sqrt : F → F) (s : SceneObject F) (p : Vec3 F) : F :=
  Vec3.Length sqrt (Vec3.sub p s.position) - s.radius

/-- The local `q2` of `ofApp::opRep` (ofApp.h 480-483): the point handed to the
primitive. -/
def opRepPoint {F : Type} [LinearOrderedField F] [FloorRing F] (p c : Vec3 F) : Vec3 F :=
  let x := fmod (p.x + 1 / 2 * c.x) c.x - 1 / 2 * c.x
  let y := fmod (p.y + 1 / 2 * c.y) c.y - 1 / 2 * c.y
  let z := fmod (p.z + 1 / 2 * c.z) c.z - 1 / 2 * c.z
  ⟨x, y, z⟩

/-- `ofApp::opRep` (ofApp.h 474-489); `obj` is the `sdf` of the primitive `obj`. -/
def opRep {F : Type} [LinearOrderedField F] [FloorRing F] (p c : Vec3 F)
    (obj : Vec3 F → F) : F :=
  obj (opRepPoint p c)

/-- A glm `mat4`, as a mathematical matrix (row index first). -/
abbrev Mat4 (F : Type) := Matrix (Fin 4) (Fin 4) F

/-- Modelled from the spec: `glm::rotate(m, angle, v)` is library code outside the
repository; the spec calls it a fixed-axis rotation, and this is the axis-angle
rotation about `normalize(v)` by `angle`, multiplied on the right of `m`.  `sqrt`,
`cos`, `sin` are the library functions it calls. -/
def glmRotate {F : Type} [Field F] (sqrt cos sin : F → F) (m : Mat4 F) (angle : F)
    (v : Vec3 F) : Mat4 F :=
  let c := cos angle
  let s := sin angle
  let axis := Vec3.Normalize sqrt v
  let temp := Vec3.lscale (1 - c) axis
  m * !![c + temp.x * axis.x, temp.y * axis.x - s * axis.z, temp.z * axis.x + s * axis.y, 0;
         temp.x * axis.y + s * axis.z, c + temp.y * axis.y, temp.z * axis.y - s * axis.x, 0;
         temp.x * axis.z - s * axis.y, temp.y * axis.z + s * axis.x, c + temp.z * axis.z, 0;
         0, 0, 0, 1]

/-- The `vec3` made of the first three coordinates of `m * vec4(p, 1)`. -/
def Mat4.transformPoint {F : Type} [Field F] (m : Mat4 F) (p : Vec3 F) : Vec3 F :=
  let v := Matrix.mulVec m ![p.x, p.y, p.z, 1]
  ⟨v 0, v 1, v 2⟩

/-- `Torus::sdf` (ofApp.h 176-198).  `radians` is `glm::radians` and `inverse` is
`glm::inverse`; the folded point `p2` is computed as in the source and, as in the
source, the returned value is taken from `p1`. -/
def Torus.sdf {F : Type} [LinearOrderedField F] [FloorRing F] (sqrt cos sin radians : F → F)
    (inverse : Mat4 F → Mat4 F) (s : SceneObject F) (p1 : Vec3 F) : F :=
  let M := glmRotate sqrt cos sin 1 (radians s.angleRotate) s.rotation
  let c : Vec3 F := ⟨4, 4, 4⟩
  let x := fmod (p1.x + 1 / 2 * c.x) c.x - 1 / 2 * c.x
  let y := fmod (p1.y + 1 / 2 * c.y) c.y - 1 / 2 * c.y
  let z := fmod (p1.z + 1 / 2 * c.z) c.z - 1 / 2 * c.z
  let _p2 : Vec3 F := ⟨x, y, z⟩
  let p3 := Mat4.transformPoint (inverse M) p1
  let q2 : Vec2 F := ⟨Vec2.length sqrt ⟨p3.x, p3.z⟩ - s.t.x, p3.y⟩
  Vec2.length sqrt q2 - s.t.y

/-- The torus distance of the specification: for a torus around the y axis with hole
radius `t.x` and tube radius `t.y`, `|(|(p.x, p.z)| - t.x, p.y)| - t.y`. -/
def torusDistance {F : Type} [Field F] (sqrt : F → F) (t : Vec2 F) (p : Vec3 F) : F :=
  sqrt ((sqrt (p.x * p.x + p.z * p.z) - t.x) * (sqrt (p.x * p.x + p.z * p.z) - t.x)
    + p.y * p.y) - t.y

/-- A point of the model as a point of Euclidean 3-space. -/
def asEuclidean (v : Vec3 ℝ) : EuclideanSpace ℝ (Fin 3) :=
  show Fin 3 → ℝ from ![v.x, v.y, v.z]

/-- The ray `r` meets the sphere of radius `radius` about the origin, and `q` is its
nearest intersection point: `q` lies on the ray at parameter `T >= 0` along the
normalised direction, on the sphere, and no earlier point of the ray is on the
sphere. -/
def IsNearestIntersection {F : Type} [LinearOrderedField F] (sqrt : F → F) (radius : F)
    (r : Ray F) (q : Vec3 F) : Prop :=
  ∃ T : F, 0 ≤ T ∧ q = Vec3.add r.o (Vec3.scale (Vec3.Normalize sqrt r.d) T) ∧
    Vec3.Length sqrt q = radius ∧
    ∀ s : F, 0 ≤ s → s < T →
      Vec3.Length sqrt (Vec3.add r.o (Vec3.scale (Vec3.Normalize sqrt r.d) s)) ≠ radius

/-- The arguments `Intersect` gives to the pbrt `SurfaceInteraction` constructor
(raymarcher.cpp 110-111, waterpool.cpp 104-105), the shape pointer left out. -/
structure SurfaceInteraction (F : Type) where
  p : Vec3 F
  pError : Vec3 F
  uv : Vec2 F
  wo : Vec3 F
  dpdu : Vec3 F
  dpdv : Vec3 F
  dndu : Vec3 F
  dndv : Vec3 F
  time : F

/-- What a call of `Intersect` leaves behind: its return value and the contents of the
two output slots.  A slot is `none` when the caller passed `nullptr`. -/
structure IntersectOut (F : Type) where
  ret : Bool
  tHit : Option F
  isect : Option (SurfaceInteraction F)

/-- The whole of `RayMarcher::Intersect` (raymarcher.cpp 62-118) and
`WaterPool::Intersect` (waterpool.cpp 62-112), output slots included, for the object
whose distance function is `sdf`.  `tHit` and `isect` are the slots as the caller
passed them, `time` is `r.time`, `defaultNormArg` the vector whose normalisation is the
default normal (`(0, 0, 1)` in RayMarcher, `(0, 1, 0)` in WaterPool); `coordinateSystem`
is pbrt's `CoordinateSystem` (its two results) and `objectToWorld` the application of
the shape's `ObjectToWorld` transform to a `SurfaceInteraction`, both library code. -/
def IntersectFull {F : Type} [LinearOrderedField F] [FloorRing F] (sqrt : F → F)
    (coordinateSystem : Vec3 F → Vec3 F × Vec3 F)
    (objectToWorld : SurfaceInteraction F → SurfaceInteraction F)
    (sdf : Vec3 F → F) (defaultNormArg : Vec3 F) (maxray distthres maxdist eps : F)
    (r : Ray F) (time : F) (tHit : Option F) (isect : Option (SurfaceInteraction F)) :
    IntersectOut F :=
  let m := Intersect sqrt sdf maxray distthres maxdist r
  let hit := m.hit
  let point := m.point
  let defaultNorm := Vec3.Normalize sqrt defaultNormArg
  let normal := (GetNormalRM sqrt sdf point eps defaultNorm).normal
  let dpdu := (coordinateSystem normal).1
  let dpdv := (coordinateSystem normal).2
  let mult := 10 * distthres
  let pError : Vec3 F := ⟨mult * point.x, mult * point.y, mult * point.z⟩
  if hit && tHit.isSome && isect.isSome then
    let distance := Vec3.sub point ⟨0, 0, 0⟩
    { ret := hit,
      tHit := some (Vec3.Length sqrt distance),
      isect := some (objectToWorld
        ⟨point, pError, ⟨0, 0⟩, ⟨-r.d.x, -r.d.y, -r.d.z⟩, dpdu, dpdv, ⟨0, 0, 0⟩, ⟨0, 0, 0⟩,
          time⟩) }
  else
    { ret := hit, tHit := tHit, isect := isect }

/-- `RayMarcher::Intersect` with its output slots (raymarcher.cpp 62-118). -/
def RayMarcher.IntersectFull {F : Type} [LinearOrderedField F] [FloorRing F] (sqrt : F → F)
    (coordinateSystem : Vec3 F → Vec3 F × Vec3 F)
    (objectToWorld : SurfaceInteraction F → SurfaceInteraction F) (s : RayMarcher F)
    (r : Ray F) (time : F) (tHit : Option F) (isect : Option (SurfaceInteraction F)) :
    IntersectOut F :=
  Render.IntersectFull sqrt coordinateSystem objectToWorld (RayMarcher.sdf sqrt s) ⟨0, 0, 1⟩
    s.maxray s.distthres s.maxdist s.eps r time tHit isect

/-- `WaterPool::Intersect` with its output slots (waterpool.cpp 62-112). -/
def WaterPool.IntersectFull {F : Type} [LinearOrderedField F] [FloorRing F] (sqrt : F → F)
    (Noise : Vec3 F → F) (coordinateSystem : Vec3 F → Vec3 F × Vec3 F)
    (objectToWorld : SurfaceInteraction F → SurfaceInteraction F) (w : WaterPool F)
    (r : Ray F) (time : F) (tHit : Option F) (isect : Option (SurfaceInteraction F)) :
    IntersectOut F :=
  Render.IntersectFull sqrt coordinateSystem objectToWorld (WaterPool.sdf Noise w) ⟨0, 1, 0⟩
    w.maxray w.distthres w.maxdist w.eps r time tHit isect

/-- Modelled from the spec: `glm::translate(glm::mat4(1.0), v)` is library code outside
the repository; the spec's "translate", the homogeneous translation by `v`. -/
def glmTranslate {F : Type} [Field F] (v : Vec3 F) : Mat4 F :=
  !![1, 0, 0, v.x;
     0, 1, 0, v.y;
     0, 0, 1, v.z;
     0, 0, 0, 1]

/-- Modelled from the spec: `glm::scale(glm::mat4(1.0), v)` is library code outside the
repository; the spec's "scale", the non-uniform scaling by `v`. -/
def glmScale {F : Type} [Field F] (v : Vec3 F) : Mat4 F :=
  !![v.x, 0, 0, 0;
     0, v.y, 0, 0;
     0, 0, v.z, 0;
     0, 0, 0, 1]

/-- Modelled from the spec: `glm::eulerAngleYXZ(yaw, pitch, roll)` is library code
outside the repository; the spec's rotation by Euler angles, the product of the
rotation about y by `yaw`, about x by `pitch` and about z by `roll`. -/
def glmEulerAngleYXZ {F : Type} [Field F] (cos sin : F → F) (yaw pitch roll : F) : Mat4 F :=
  let ch := cos yaw
  let sh := sin yaw
  let cp := cos pitch
  let sp := sin pitch
  let cb := cos roll
  let sb := sin roll
  !![ch * cb + sh * sp * sb, -ch * sb + sh * sp * cb, sh * cp, 0;
     sb * cp, cb * cp, -sp, 0;
     -sh * cb + ch * sp * sb, sb * sh + ch * sp * cb, ch * cp, 0;
     0, 0, 0, 1]

namespace SceneObject

variable {F : Type} [Field F]

/-- `SceneObject::getRotateMatrix` (ofApp.h 31-33). -/
def getRotateMatrix (cos sin radians : F → F) (s : SceneObject F) : Mat4 F :=
  glmEulerAngleYXZ cos sin (radians s.rotation.y) (radians s.rotation.x)
    (radians s.rotation.z)

/-- `SceneObject::getTranslateMatrix` (ofApp.h 34-36). -/
def getTranslateMatrix (s : SceneObject F) : Mat4 F :=
  glmTranslate ⟨s.position.x, s.position.y, s.position.z⟩

/-- `SceneObject::getScaleMatrix` (ofApp.h 37-39). -/
def getScaleMatrix (s : SceneObject F) : Mat4 F :=
  glmScale ⟨s.scale.x, s.scale.y, s.scale.z⟩

/-- `SceneObject::getMatrix` (ofApp.h 51-68). -/
def getMatrix (cos sin radians : F → F) (s : SceneObject F) : Mat4 F :=
  let scale := getScaleMatrix s
  let rotate := getRotateMatrix cos sin radians s
  let trans := getTranslateMatrix s
  let pre := glmTranslate ⟨-s.pivot.x, -s.pivot.y, -s.pivot.z⟩
  let post := glmTranslate ⟨s.pivot.x, s.pivot.y, s.pivot.z⟩
  trans * post * rotate * pre * scale

/-- `SceneObject::getPosition` (ofApp.h 78-80). -/
def getPosition (cos sin radians : F → F) (s : SceneObject F) : Vec3 F :=
  Mat4.transformPoint (getMatrix cos sin radians s) ⟨0, 0, 0⟩

/-- `SceneObject::setPosition` (ofApp.h 84-86): the object after the call; `inverse` is
`glm::inverse`. -/
def setPosition (cos sin radians : F → F) (inverse : Mat4 F → Mat4 F) (s : SceneObject F)
    (pos : Vec3 F) : SceneObject F :=
  { s with position := Mat4.transformPoint (inverse (getMatrix cos sin radians s)) pos }

end SceneObject

/-- The data members of `Light` (ofApp.h 421-428) on top of those of `SceneObject`.  The
pointer `target` is not a member here: `draw` takes what it reads through it. -/
structure Light (F : Type) extends SceneObject F where
  spotlight : Bool
  btarget : Bool
  ball : F
  pointAt : Vec3 F
  coneAngle : F
  coneLength : F

namespace Light

variable {F : Type} [Field F]

/-- The constructor `Light(intense, pos, spot)` (ofApp.h 348-353): the three members
it assigns, the others at their defaults (ofApp.h 71-74, 94-99, 421-428), and `pointAt`,
which has no initialiser, holding `pointAt0`. -/
def new (intense : F) (pos : Vec3 F) (spot : Bool) (pointAt0 : Vec3 F) : Light F :=
  { position := pos, rotation := ⟨1, 0, 0⟩, scale := ⟨1, 1, 1⟩, pivot := ⟨0, 0, 0⟩,
    radius := 1, intensity := intense, coneRad := 3 / 4, t := ⟨0, 0⟩, angleRotate := 60,
    spotlight := spot, btarget := false, ball := 1 / 5, pointAt := pointAt0,
    coneAngle := 180, coneLength := 3 }

/-- The effect of `Light::draw` (ofApp.h 354-407) on the members of the light; the
drawing calls change none.  `targetPosition` is `this->target->getPosition()`, read
when the light is a spotlight; `atan` is `glm::atan`. -/
def draw (cos sin radians atan : F → F) (l : Light F) (targetPosition : Vec3 F) : Light F :=
  let l1 : Light F := if l.btarget then { l with ball := l.coneRad, intensity := 0 } else l
  if l1.spotlight then
    { l1 with
      pointAt := Vec3.sub targetPosition
        (SceneObject.getPosition cos sin radians l1.toSceneObject),
      coneAngle := atan (l1.coneRad / l1.coneLength) }
  else l1

/-- The states of a light that construction, assignments to the public members
`btarget` and `intensity`, and calls of `draw` and `setPosition` lead to. -/
inductive Reachable (cos sin radians atan : F → F) (inverse : Mat4 F → Mat4 F) :
    Light F → Prop
  | construct (intense : F) (pos : Vec3 F) (spot : Bool) (pointAt0 : Vec3 F) :
      Reachable cos sin radians atan inverse (Light.new intense pos spot pointAt0)
  | assignBtarget (l : Light F) (b : Bool) :
      Reachable cos sin radians atan inverse l →
      Reachable cos sin radians atan inverse { l with btarget := b }
  | assignIntensity (l : Light F) (x : F) :
      Reachable cos sin radians atan inverse l →
      Reachable cos sin radians atan inverse { l with intensity := x }
  | callDraw (l : Light F) (targetPosition : Vec3 F) :
      Reachable cos sin radians atan inverse l →
      Reachable cos sin radians atan inverse (draw cos sin radians atan l targetPosition)
  | callSetPosition (l : Light F) (pos : Vec3 F) :
      Reachable cos sin radians atan inverse l →
      Reachable cos sin radians atan inverse
        { l with toSceneObject :=
            SceneObject.setPosition cos sin radians inverse l.toSceneObject pos }

end Light

/-- The cosine of the angle of incidence of the ray `r` at the point `q` of the sphere
of radius `radius` about the origin: the component of the reversed unit direction
along the outward unit normal `q / radius`.  It is 1 for a ray that meets the sphere
head-on and 0 for a tangent ray. -/
def incidenceCos {F : Type} [Field F] (sqrt : F → F) (radius : F) (r : Ray F)
    (q : Vec3 F) : F :=
  -(Vec3.dot (Vec3.Normalize sqrt r.d) q) / radius

end Render

open Render

section MarchLemmas

variable {F : Type} [LinearOrderedField F]

theorem marchPoint_shift (sdf : Vec3 F → F) (dir o : Vec3 F) (i : Nat) :
    marchPoint sdf dir o (i + 1)
      = marchPoint sdf dir (Vec3.add o (Vec3.scale dir (sdf o))) i := by
  induction i with
  | zero => rfl
  | succ k ih =>
    show Vec3.add (marchPoint sdf dir o (k + 1)) _ = Vec3.add (marchPoint sdf dir _ k) _
    rw [ih]

theorem marchDist_shift (sdf : Vec3 F → F) (dir o : Vec3 F) (i : Nat) :
    marchDist sdf dir o (i + 1)
      = marchDist sdf dir (Vec3.add o (Vec3.scale dir (sdf o))) i := by
  unfold marchDist
  rw [marchPoint_shift]

/-- A hit of the loop is the first index below the threshold, with no escape before. -/
theorem marchLoop_hit_iff (sdf : Vec3 F → F) (dir : Vec3 F) (t m : F) :
    ∀ (n : Nat) (p : Vec3 F) (e : Nat),
      (marchLoop sdf dir t m n p e).hit = true ↔
        ∃ i, i < n ∧ marchDist sdf dir p i < t ∧
          ∀ j, j < i → t ≤ marchDist sdf dir p j ∧ marchDist sdf dir p j ≤ m := by
  intro n
  induction n with
  | zero =>
    intro p e
    simp [marchLoop]
  | succ k ih =>
    intro p e
    by_cases h1 : sdf p < t
    · have : (marchLoop sdf dir t m (k + 1) p e).hit = true := by simp [marchLoop, h1]
      simp only [this, true_iff]
      exact ⟨0, Nat.succ_pos k, h1, fun j hj => absurd hj (Nat.not_lt_zero j)⟩
    · by_cases h2 : sdf p > m
      · have : (marchLoop sdf dir t m (k + 1) p e).hit = false := by
          simp [marchLoop, h1, h2]
        simp only [this, Bool.false_eq_true, false_iff]
        rintro ⟨i, _, hi, hall⟩
        cases i with
        | zero => exact h1 hi
        | succ i' =>
          have := (hall 0 (Nat.succ_pos i')).2
          exact absurd h2 (not_lt.mpr this)
      · have hrec : marchLoop sdf dir t m (k + 1) p e
            = marchLoop sdf dir t m k (Vec3.add p (Vec3.scale dir (sdf p))) (e + 1) := by
          simp [marchLoop, h1, h2]
        rw [hrec, ih]
        constructor
        · rintro ⟨i, hi, hd, hall⟩
          refine ⟨i + 1, Nat.succ_lt_succ hi, ?_, ?_⟩
          · rw [marchDist_shift]; exact hd
          · intro j hj
            cases j with
            | zero => exact ⟨not_lt.mp h1, not_lt.mp h2⟩
            | succ j' =>
              rw [marchDist_shift]
              exact hall j' (Nat.lt_of_succ_lt_succ hj)
        · rintro ⟨i, hi, hd, hall⟩
          cases i with
          | zero => exact absurd hd h1
          | succ i' =>
            refine ⟨i', Nat.lt_of_succ_lt_succ hi, ?_, ?_⟩
            · rw [← marchDist_shift]; exact hd
            · intro j hj
              rw [← marchDist_shift]
              exact hall (j + 1) (Nat.succ_lt_succ hj)

/-- On a hit the reported point is the marched point of the hitting index. -/
theorem marchLoop_hit_point (sdf : Vec3 F → F) (dir : Vec3 F) (t m : F) :
    ∀ (n : Nat) (p : Vec3 F) (e : Nat),
      (marchLoop sdf dir t m n p e).hit = true →
        ∃ i, i < n ∧ marchDist sdf dir p i < t ∧
          (∀ j, j < i → t ≤ marchDist sdf dir p j ∧ marchDist sdf dir p j ≤ m) ∧
          (marchLoop sdf dir t m n p e).point = marchPoint sdf dir p i := by
  intro n
  induction n with
  | zero =>
    intro p e h
    simp [marchLoop] at h
  | succ k ih =>
    intro p e h
    by_cases h1 : sdf p < t
    · refine ⟨0, Nat.succ_pos k, h1, fun j hj => absurd hj (Nat.not_lt_zero j), ?_⟩
      simp [marchLoop, h1, marchPoint]
    · by_cases h2 : sdf p > m
      · simp [marchLoop, h1, h2] at h
      · have hrec : marchLoop sdf dir t m (k + 1) p e
            = marchLoop sdf dir t m k (Vec3.add p (Vec3.scale dir (sdf p))) (e + 1) := by
          simp [marchLoop, h1, h2]
        rw [hrec] at h ⊢
        obtain ⟨i, hi, hd, hall, hp⟩ := ih _ _ h
        refine ⟨i + 1, Nat.succ_lt_succ hi, ?_, ?_, ?_⟩
        · rw [marchDist_shift]; exact hd
        · intro j hj
          cases j with
          | zero => exact ⟨not_lt.mp h1, not_lt.mp h2⟩
          | succ j' =>
            rw [marchDist_shift]
            exact hall j' (Nat.lt_of_succ_lt_succ hj)
        · rw [marchPoint_shift]; exact hp

/-- The loop evaluates the sdf at most once per iteration. -/
theorem marchLoop_evals_le (sdf : Vec3 F → F) (dir : Vec3 F) (t m : F) :
    ∀ (n : Nat) (p : Vec3 F) (e : Nat), (marchLoop sdf dir t m n p e).evals ≤ e + n := by
  intro n
  induction n with
  | zero => intro p e; simp [marchLoop]
  | succ k ih =>
    intro p e
    by_cases h1 : sdf p < t
    · simp [marchLoop, h1]
    · by_cases h2 : sdf p > m
      · simp [marchLoop, h1, h2]
      · have hrec : marchLoop sdf dir t m (k + 1) p e
            = marchLoop sdf dir t m k (Vec3.add p (Vec3.scale dir (sdf p))) (e + 1) := by
          simp [marchLoop, h1, h2]
        rw [hrec]
        have := ih (Vec3.add p (Vec3.scale dir (sdf p))) (e + 1)
        omega

end MarchLemmas

section RealLemmas

theorem Vec3.ext_iff3 {F : Type} (a b : Vec3 F) :
    a = b ↔ a.x = b.x ∧ a.y = b.y ∧ a.z = b.z := by
  cases a; cases b; simp

theorem lengthSquared_nonneg {F : Type} [LinearOrderedField F] (v : Vec3 F) :
    0 ≤ Vec3.LengthSquared v := by
  unfold Vec3.LengthSquared
  nlinarith [mul_self_nonneg v.x, mul_self_nonneg v.y, mul_self_nonneg v.z]

theorem lengthSquared_eq_zero_iff {F : Type} [LinearOrderedField F] (v : Vec3 F) :
    Vec3.LengthSquared v = 0 ↔ v = ⟨0, 0, 0⟩ := by
  rw [Vec3.ext_iff3]
  unfold Vec3.LengthSquared
  constructor
  · intro h
    have hx := mul_self_nonneg v.x
    have hy := mul_self_nonneg v.y
    have hz := mul_self_nonneg v.z
    refine ⟨?_, ?_, ?_⟩
    · exact mul_self_eq_zero.mp (by linarith)
    · exact mul_self_eq_zero.mp (by linarith)
    · exact mul_self_eq_zero.mp (by linarith)
  · rintro ⟨hx, hy, hz⟩
    simp only [hx, hy, hz]
    ring

theorem length_nonneg (v : Vec3 ℝ) : 0 ≤ Vec3.Length Real.sqrt v :=
  Real.sqrt_nonneg _

theorem length_mul_self (v : Vec3 ℝ) :
    Vec3.Length Real.sqrt v * Vec3.Length Real.sqrt v = Vec3.LengthSquared v :=
  Real.mul_self_sqrt (lengthSquared_nonneg v)

theorem length_eq_zero_iff (v : Vec3 ℝ) :
    Vec3.Length Real.sqrt v = 0 ↔ v = ⟨0, 0, 0⟩ := by
  unfold Vec3.Length
  rw [Real.sqrt_eq_zero (lengthSquared_nonneg v), lengthSquared_eq_zero_iff]

/-- The length computed by the code is the Euclidean norm. -/
theorem length_eq_norm (v : Vec3 ℝ) : Vec3.Length Real.sqrt v = ‖asEuclidean v‖ := by
  rw [EuclideanSpace.norm_eq]
  unfold Vec3.Length Vec3.LengthSquared
  congr 1
  simp [Fin.sum_univ_three, asEuclidean, sq]

theorem asEuclidean_sub (a b : Vec3 ℝ) :
    asEuclidean (Vec3.sub a b) = asEuclidean a - asEuclidean b := by
  ext i
  fin_cases i <;> simp [asEuclidean, Vec3.sub]

theorem asEuclidean_add (a b : Vec3 ℝ) :
    asEuclidean (Vec3.add a b) = asEuclidean a + asEuclidean b := by
  ext i
  fin_cases i <;> simp [asEuclidean, Vec3.add]

theorem asEuclidean_scale (a : Vec3 ℝ) (s : ℝ) :
    asEuclidean (Vec3.scale a s) = s • asEuclidean a := by
  ext i
  fin_cases i <;> simp [asEuclidean, Vec3.scale, mul_comm]

theorem length_sub_eq_dist (a b : Vec3 ℝ) :
    Vec3.Length Real.sqrt (Vec3.sub a b) = dist (asEuclidean a) (asEuclidean b) := by
  rw [length_eq_norm, asEuclidean_sub, dist_eq_norm]

/-- The normalised vector has length 1, or 0 for the zero vector. -/
theorem length_normalize (v : Vec3 ℝ) (h : v ≠ ⟨0, 0, 0⟩) :
    Vec3.Length Real.sqrt (Vec3.Normalize Real.sqrt v) = 1 := by
  have hL : Vec3.Length Real.sqrt v ≠ 0 := fun h0 => h ((length_eq_zero_iff v).mp h0)
  have hsq := length_mul_self v
  have : Vec3.LengthSquared (Vec3.Normalize Real.sqrt v) = 1 := by
    unfold Vec3.Normalize
    simp only [Vec3.LengthSquared] at hsq ⊢
    field_simp
    nlinarith [hsq]
  unfold Vec3.Length
  rw [this, Real.sqrt_one]

theorem length_normalize_le_one (v : Vec3 ℝ) :
    Vec3.Length Real.sqrt (Vec3.Normalize Real.sqrt v) ≤ 1 := by
  by_cases h : v = ⟨0, 0, 0⟩
  · subst h
    simp [Vec3.Normalize, Vec3.Length, Vec3.LengthSquared]
  · exact le_of_eq (length_normalize v h)

end RealLemmas

section MarcherClaims

variable {F : Type} [LinearOrderedField F] [FloorRing F]

theorem intersect_hit_iff_aux (sqrt : F → F) (sdf : Vec3 F → F)
    (maxray distthres maxdist : F) (r : Ray F) :
    (Intersect sqrt sdf maxray distthres maxdist r).hit = true ↔
      ∃ i : Nat, (i : Int) < toInt maxray ∧
        marchDist sdf (Vec3.Normalize sqrt r.d) r.o i < distthres ∧
        ∀ j : Nat, j < i →
          distthres ≤ marchDist sdf (Vec3.Normalize sqrt r.d) r.o j ∧
          marchDist sdf (Vec3.Normalize sqrt r.d) r.o j ≤ maxdist := by
  unfold Intersect
  rw [marchLoop_hit_iff]
  constructor
  · rintro ⟨i, hi, h⟩
    exact ⟨i, Int.lt_toNat.mp hi, h⟩
  · rintro ⟨i, hi, h⟩
    exact ⟨i, Int.lt_toNat.mpr hi, h⟩

theorem intersect_hit_point_aux (sqrt : F → F) (sdf : Vec3 F → F)
    (maxray distthres maxdist : F) (r : Ray F)
    (h : (Intersect sqrt sdf maxray distthres maxdist r).hit = true) :
    (∃ i : Nat, (i : Int) < toInt maxray ∧
      marchDist sdf (Vec3.Normalize sqrt r.d) r.o i < distthres ∧
      (∀ j : Nat, j < i →
        distthres ≤ marchDist sdf (Vec3.Normalize sqrt r.d) r.o j ∧
        marchDist sdf (Vec3.Normalize sqrt r.d) r.o j ≤ maxdist) ∧
      (Intersect sqrt sdf maxray distthres maxdist r).point
        = marchPoint sdf (Vec3.Normalize sqrt r.d) r.o i) ∧
    sdf (Intersect sqrt sdf maxray distthres maxdist r).point < distthres := by
  unfold Intersect at h ⊢
  obtain ⟨i, hi, hd, hall, hp⟩ := marchLoop_hit_point sdf _ distthres maxdist _ _ _ h
  refine ⟨⟨i, Int.lt_toNat.mp hi, hd, hall, hp⟩, ?_⟩
  simp only [] at hp ⊢
  rw [hp]
  exact hd

theorem toInt_natCast (n : Nat) : toInt (n : F) = (n : Int) := by
  unfold toInt
  rw [if_pos (Nat.cast_nonneg n)]
  exact Int.floor_natCast n

theorem toInt_nonpos (x : F) (hle : x ≤ 0) : toInt x ≤ 0 := by
  unfold toInt
  split_ifs with h
  · have : x = 0 := le_antisymm hle h
    simp [this]
  · exact Int.ceil_le.mpr (by simpa using hle)

/-- C1: `Intersect` (the body shared by `RayMarcher::Intersect` and
`WaterPool::Intersect`, for an arbitrary `sdf`) returns HIT if and only if some index
`i < (int)maxray` has `d_i < distthres` while every earlier `j < i` has
`distthres <= d_j <= maxdist`; on a HIT the reported point is that `p_i`, and so
`sdf(point) < distthres`. -/
theorem intersect_hit_iff_first_below_threshold (sqrt : F → F) (sdf : Vec3 F → F)
    (maxray distthres maxdist : F) (r : Ray F) :
    ((Intersect sqrt sdf maxray distthres maxdist r).hit = true ↔
      ∃ i : Nat, (i : Int) < toInt maxray ∧
        marchDist sdf (Vec3.Normalize sqrt r.d) r.o i < distthres ∧
        ∀ j : Nat, j < i →
          distthres ≤ marchDist sdf (Vec3.Normalize sqrt r.d) r.o j ∧
          marchDist sdf (Vec3.Normalize sqrt r.d) r.o j ≤ maxdist) ∧
    ((Intersect sqrt sdf maxray distthres maxdist r).hit = true →
      (∃ i : Nat, (i : Int) < toInt maxray ∧
        marchDist sdf (Vec3.Normalize sqrt r.d) r.o i < distthres ∧
        (∀ j : Nat, j < i →
          distthres ≤ marchDist sdf (Vec3.Normalize sqrt r.d) r.o j ∧
          marchDist sdf (Vec3.Normalize sqrt r.d) r.o j ≤ maxdist) ∧
        (Intersect sqrt sdf maxray distthres maxdist r).point
          = marchPoint sdf (Vec3.Normalize sqrt r.d) r.o i) ∧
      sdf (Intersect sqrt sdf maxray distthres maxdist r).point < distthres) :=
  ⟨intersect_hit_iff_aux sqrt sdf maxray distthres maxdist r,
   intersect_hit_point_aux sqrt sdf maxray distthres maxdist r⟩

/-- C2: the marching loop always terminates (`Intersect` is a total function); it
evaluates the sdf at most `(int)maxray` times (no time when the cast is negative); if
every distance `d_i`, `i < (int)maxray`, lies in `[distthres, maxdist]` the result is
MISS; and `maxray <= 0` gives MISS for every ray. -/
theorem intersect_terminates_bounded (sqrt : F → F) (sdf : Vec3 F → F)
    (maxray distthres maxdist : F) (r : Ray F) :
    (∃ res : MarchState F, Intersect sqrt sdf maxray distthres maxdist r = res ∧
      (res.evals : Int) ≤ max (toInt maxray) 0) ∧
    ((∀ i : Nat, (i : Int) < toInt maxray →
        distthres ≤ marchDist sdf (Vec3.Normalize sqrt r.d) r.o i ∧
        marchDist sdf (Vec3.Normalize sqrt r.d) r.o i ≤ maxdist) →
      (Intersect sqrt sdf maxray distthres maxdist r).hit = false) ∧
    (maxray ≤ 0 → (Intersect sqrt sdf maxray distthres maxdist r).hit = false) := by
  have key : (∀ i : Nat, (i : Int) < toInt maxray →
        distthres ≤ marchDist sdf (Vec3.Normalize sqrt r.d) r.o i ∧
        marchDist sdf (Vec3.Normalize sqrt r.d) r.o i ≤ maxdist) →
      (Intersect sqrt sdf maxray distthres maxdist r).hit = false := by
    intro hall
    cases hh : (Intersect sqrt sdf maxray distthres maxdist r).hit with
    | false => rfl
    | true =>
      obtain ⟨i, hi, hd, _⟩ :=
        (intersect_hit_iff_aux sqrt sdf maxray distthres maxdist r).mp hh
      exact absurd hd (not_lt.mpr (hall i hi).1)
  refine ⟨⟨_, rfl, ?_⟩, key, ?_⟩
  · have h := marchLoop_evals_le sdf (Vec3.Normalize sqrt r.d) distthres maxdist
      (toInt maxray).toNat r.o 0
    unfold Intersect
    simp only [] at h ⊢
    have h2 : (((toInt maxray).toNat : Nat) : Int) = max (toInt maxray) 0 :=
      Int.toNat_eq_max _
    omega
  · intro hle
    apply key
    intro i hi
    exfalso
    have h0 : toInt maxray ≤ 0 := toInt_nonpos maxray hle
    have : (0 : Int) ≤ (i : Int) := Int.natCast_nonneg i
    omega

end MarcherClaims

section MarcherWitnesses

theorem marchLoop_of_hit {F : Type} [LinearOrderedField F] (sdf : Vec3 F → F)
    (dir : Vec3 F) (t m : F) (n : Nat) (p : Vec3 F) (e : Nat) (h : sdf p < t) :
    marchLoop sdf dir t m (n + 1) p e = ⟨true, p, e + 1⟩ := by
  simp [marchLoop, h]

theorem marchLoop_of_escape {F : Type} [LinearOrderedField F] (sdf : Vec3 F → F)
    (dir : Vec3 F) (t m : F) (n : Nat) (p : Vec3 F) (e : Nat) (h1 : ¬ sdf p < t)
    (h2 : m < sdf p) :
    marchLoop sdf dir t m (n + 1) p e = ⟨false, p, e + 1⟩ := by
  simp [marchLoop, h1, h2]

theorem marchLoop_of_step {F : Type} [LinearOrderedField F] (sdf : Vec3 F → F)
    (dir : Vec3 F) (t m : F) (n : Nat) (p : Vec3 F) (e : Nat) (h1 : ¬ sdf p < t)
    (h2 : ¬ m < sdf p) :
    marchLoop sdf dir t m (n + 1) p e
      = marchLoop sdf dir t m n (Vec3.add p (Vec3.scale dir (sdf p))) (e + 1) := by
  simp [marchLoop, h1, h2]

/-- On the plane `z = 1` seen from `(0, 0, 5)` along `-z` the marcher reports HIT, and
the reported point is within the threshold of the plane. -/
theorem intersect_hit_iff_first_below_threshold_witness :
    (Intersect (F := ℚ) id (fun p => p.z - 1) 1000 (1 / 100) 100
        ⟨⟨0, 0, 5⟩, ⟨0, 0, -1⟩⟩).hit = true ∧
    (Intersect (F := ℚ) id (fun p => p.z - 1) 1000 (1 / 100) 100
        ⟨⟨0, 0, 5⟩, ⟨0, 0, -1⟩⟩).point.z - 1 < 1 / 100 := by
  have h1000 : toInt (1000 : ℚ) = 1000 := by exact_mod_cast toInt_natCast (F := ℚ) 1000
  have hhit : (Intersect (F := ℚ) id (fun p => p.z - 1) 1000 (1 / 100) 100
      ⟨⟨0, 0, 5⟩, ⟨0, 0, -1⟩⟩).hit = true := by
    simp [Intersect, h1000, marchLoop, Vec3.Normalize, Vec3.Length, Vec3.LengthSquared,
      Vec3.add, Vec3.scale]
    norm_num
  exact ⟨hhit, ((intersect_hit_iff_first_below_threshold (F := ℚ) id (fun p => p.z - 1)
    1000 (1 / 100) 100 ⟨⟨0, 0, 5⟩, ⟨0, 0, -1⟩⟩).2 hhit).2⟩

/-- A distance function that is 1 everywhere never hits and never escapes: with
`maxray = 3` the loop stops after three evaluations with MISS; with `maxray = 0` it
makes none. -/
theorem intersect_terminates_bounded_witness :
    (Intersect (F := ℚ) id (fun _ => 1) 3 (1 / 100) 100 ⟨⟨0, 0, 5⟩, ⟨0, 0, -1⟩⟩).hit = false ∧
    (Intersect (F := ℚ) id (fun _ => 1) 0 (1 / 100) 100 ⟨⟨0, 0, 5⟩, ⟨0, 0, -1⟩⟩).hit = false := by
  constructor
  · apply (intersect_terminates_bounded (F := ℚ) id (fun _ => 1) 3 (1 / 100) 100
      ⟨⟨0, 0, 5⟩, ⟨0, 0, -1⟩⟩).2.1
    intro i _
    simp only [marchDist]
    norm_num
  · exact (intersect_terminates_bounded (F := ℚ) id (fun _ => 1) 0 (1 / 100) 100
      ⟨⟨0, 0, 5⟩, ⟨0, 0, -1⟩⟩).2.2 (le_refl 0)

end MarcherWitnesses


section SphereSdf

/-- C6: `Sphere::sdf(p)` is the Euclidean distance from `p` to `position` minus
`radius`; it is zero exactly on the sphere, positive exactly outside, negative exactly
inside; and `RayMarcher::sdf` is the same function with the centre at the origin. -/
theorem sphere_sdf_is_signed_distance (s : SceneObject ℝ) (m : RayMarcher ℝ) (p : Vec3 ℝ) :
    Sphere.sdf Real.sqrt s p
        = dist (asEuclidean p) (asEuclidean s.position) - s.radius ∧
    (Sphere.sdf Real.sqrt s p = 0 ↔
        dist (asEuclidean p) (asEuclidean s.position) = s.radius) ∧
    (0 < Sphere.sdf Real.sqrt s p ↔
        s.radius < dist (asEuclidean p) (asEuclidean s.position)) ∧
    (Sphere.sdf Real.sqrt s p < 0 ↔
        dist (asEuclidean p) (asEuclidean s.position) < s.radius) ∧
    RayMarcher.sdf Real.sqrt m p
        = Sphere.sdf Real.sqrt { s with position := ⟨0, 0, 0⟩, radius := m.radius } p := by
  have h : Sphere.sdf Real.sqrt s p
      = dist (asEuclidean p) (asEuclidean s.position) - s.radius := by
    unfold Sphere.sdf
    rw [length_sub_eq_dist]
  refine ⟨h, ?_, ?_, ?_, rfl⟩
  · rw [h]; exact sub_eq_zero
  · rw [h]; exact sub_pos
  · rw [h]; exact sub_neg

end SphereSdf

section NormalEstimation

theorem getNormalRM_of_zero (sdf : Vec3 ℝ → ℝ) (p : Vec3 ℝ) (eps : ℝ)
    (defaultNormal : Vec3 ℝ) (h : normalDiff sdf p eps = ⟨0, 0, 0⟩) :
    GetNormalRM Real.sqrt sdf p eps defaultNormal = ⟨defaultNormal, true⟩ := by
  have hL := (length_eq_zero_iff _).mpr h
  unfold normalDiff at hL
  unfold GetNormalRM
  simp only [hL, if_true]

theorem getNormalRM_of_ne (sdf : Vec3 ℝ → ℝ) (p : Vec3 ℝ) (eps : ℝ)
    (defaultNormal : Vec3 ℝ) (h : normalDiff sdf p eps ≠ ⟨0, 0, 0⟩) :
    GetNormalRM Real.sqrt sdf p eps defaultNormal
      = ⟨Vec3.Normalize Real.sqrt (normalDiff sdf p eps), false⟩ := by
  have hL : Vec3.Length Real.sqrt (normalDiff sdf p eps) ≠ 0 :=
    fun h0 => h ((length_eq_zero_iff _).mp h0)
  unfold normalDiff at hL
  unfold GetNormalRM normalDiff
  simp only [hL, if_false]

/-- C9: with `g` the difference vector of the specification, `GetNormalRM` takes the
fallback branch exactly when `g` is the zero vector and then returns the default
normal (as it does whenever `eps = 0`); otherwise the divisor `|g|` is not zero and it
returns `g / |g|`, whose length is 1. -/
theorem getNormalRM_fallback_or_unit (sdf : Vec3 ℝ → ℝ) (p : Vec3 ℝ) (eps : ℝ)
    (defaultNormal : Vec3 ℝ) :
    ((GetNormalRM Real.sqrt sdf p eps defaultNormal).usedDefault = true ↔
        normalDiff sdf p eps = ⟨0, 0, 0⟩) ∧
    (normalDiff sdf p eps = ⟨0, 0, 0⟩ →
        (GetNormalRM Real.sqrt sdf p eps defaultNormal).normal = defaultNormal) ∧
    (eps = 0 → (GetNormalRM Real.sqrt sdf p eps defaultNormal).normal = defaultNormal) ∧
    (normalDiff sdf p eps ≠ ⟨0, 0, 0⟩ →
        Vec3.Length Real.sqrt (normalDiff sdf p eps) ≠ 0 ∧
        (GetNormalRM Real.sqrt sdf p eps defaultNormal).normal
          = Vec3.scale (normalDiff sdf p eps)
              (1 / Vec3.Length Real.sqrt (normalDiff sdf p eps)) ∧
        Vec3.Length Real.sqrt (GetNormalRM Real.sqrt sdf p eps defaultNormal).normal = 1) := by
  refine ⟨?_, ?_, ?_, ?_⟩
  · by_cases h : normalDiff sdf p eps = ⟨0, 0, 0⟩
    · simp [getNormalRM_of_zero sdf p eps defaultNormal h, h]
    · simp [getNormalRM_of_ne sdf p eps defaultNormal h, h]
  · intro h
    rw [getNormalRM_of_zero sdf p eps defaultNormal h]
  · intro h
    subst h
    have : normalDiff sdf p 0 = ⟨0, 0, 0⟩ := by simp [normalDiff]
    rw [getNormalRM_of_zero sdf p 0 defaultNormal this]
  · intro h
    refine ⟨fun h0 => h ((length_eq_zero_iff _).mp h0), ?_, ?_⟩
    · rw [getNormalRM_of_ne sdf p eps defaultNormal h]
      rfl
    · rw [getNormalRM_of_ne sdf p eps defaultNormal h]
      exact length_normalize _ h

/-- A point where the fallback is not taken: the plane `sdf(p) = p.y`, whose difference
vector is `(0, eps, 0)`. -/
theorem getNormalRM_fallback_or_unit_witness :
    normalDiff (fun q : Vec3 ℝ => q.y) ⟨0, 0, 0⟩ 1 ≠ ⟨0, 0, 0⟩ ∧
    Vec3.Length Real.sqrt
      (GetNormalRM Real.sqrt (fun q : Vec3 ℝ => q.y) ⟨0, 0, 0⟩ 1 ⟨0, 0, 1⟩).normal = 1 := by
  have hne : normalDiff (fun q : Vec3 ℝ => q.y) ⟨0, 0, 0⟩ 1 ≠ ⟨0, 0, 0⟩ := by
    simp [normalDiff, Vec3.ext_iff3]
  exact ⟨hne,
    ((getNormalRM_fallback_or_unit (fun q : Vec3 ℝ => q.y) ⟨0, 0, 0⟩ 1 ⟨0, 0, 1⟩).2.2.2
      hne).2.2⟩

end NormalEstimation

section WaterPoolSdf

variable {F : Type} [LinearOrderedField F]

theorem noiseLoop_eq_sum (Noise : Vec3 F → F) (pos : Vec3 F) :
    ∀ (n : Nat) (noise ampl freq : F),
      WaterPool.noiseLoop Noise pos n noise ampl freq
        = noise + ∑ i in Finset.range n,
            ampl / 2 ^ (i + 1) * Noise (Vec3.lscale (freq * 2 ^ i) pos) := by
  intro n
  induction n with
  | zero => intro noise ampl freq; simp [WaterPool.noiseLoop]
  | succ k ih =>
    intro noise ampl freq
    rw [WaterPool.noiseLoop, ih, Finset.sum_range_succ', add_assoc]
    congr 1
    rw [add_comm]
    congr 1
    · apply Finset.sum_congr rfl
      intro i _
      have h1 : ampl / 2 / 2 ^ (i + 1) = ampl / 2 ^ (i + 1 + 1) := by
        rw [div_div, ← pow_succ']
      have h2 : freq * 2 * 2 ^ i = freq * 2 ^ (i + 1) := by
        rw [mul_assoc, ← pow_succ']
      rw [h1, h2]
    · simp

/-- C10: `WaterPool::sdf(p) = p.y - (located.y + Σ_{i<n} (a / 2^(i+1)) · Noise(f · 2^i · p))`
with `located.y = -2`, for every noise function, amplitude `a`, frequency `f` and
octave count `n` (a negative count runs no iteration and sums nothing). -/
theorem waterpool_sdf_octave_sum (Noise : Vec3 F → F) (w : WaterPool F) (p : Vec3 F) :
    WaterPool.sdf Noise w p
      = p.y - (-2 + ∑ i in Finset.range w.octave.toNat,
          w.amplitude / 2 ^ (i + 1) * Noise (Vec3.lscale (w.frequency * 2 ^ i) p)) := by
  unfold WaterPool.sdf
  simp only [noiseLoop_eq_sum, zero_add]

end WaterPoolSdf

section SphereScenario

theorem rayMarcher_sdf_eq (s : RayMarcher ℝ) (p : Vec3 ℝ) :
    RayMarcher.sdf Real.sqrt s p
      = Real.sqrt (p.x * p.x + p.y * p.y + p.z * p.z) - s.radius := by
  simp [RayMarcher.sdf, Vec3.Length, Vec3.LengthSquared, Vec3.sub]

theorem rayMarcher_sdf_z_axis (s : RayMarcher ℝ) (z : ℝ) (hz : 0 ≤ z) :
    RayMarcher.sdf Real.sqrt s ⟨0, 0, z⟩ = z - s.radius := by
  rw [rayMarcher_sdf_eq]
  simp [Real.sqrt_mul_self hz]

theorem normalize_neg_z : Vec3.Normalize Real.sqrt (⟨0, 0, -1⟩ : Vec3 ℝ) = ⟨0, 0, -1⟩ := by
  simp [Vec3.Normalize, Vec3.Length, Vec3.LengthSquared]

theorem normalize_pos_z : Vec3.Normalize Real.sqrt (⟨0, 0, 1⟩ : Vec3 ℝ) = ⟨0, 0, 1⟩ := by
  simp [Vec3.Normalize, Vec3.Length, Vec3.LengthSquared]

theorem toInt_thousand : toInt (1000 : ℝ) = 1000 := by
  exact_mod_cast toInt_natCast (F := ℝ) 1000

/-- The marcher on the scenario ray: one step of length 4, then a hit at `(0, 0, 1)`. -/
theorem scenario_intersect :
    RayMarcher.Intersect Real.sqrt (RayMarcher.default (F := ℝ)) ⟨⟨0, 0, 5⟩, ⟨0, 0, -1⟩⟩
      = ⟨true, ⟨0, 0, 1⟩, 2⟩ := by
  unfold RayMarcher.Intersect Intersect
  simp only [normalize_neg_z]
  have hn : (toInt (RayMarcher.default (F := ℝ)).maxray).toNat = 998 + 1 + 1 := by
    show (toInt (1000 : ℝ)).toNat = 1000
    rw [toInt_thousand]; rfl
  have h5 : RayMarcher.sdf Real.sqrt (RayMarcher.default (F := ℝ)) ⟨0, 0, 5⟩ = 4 := by
    rw [rayMarcher_sdf_z_axis _ 5 (by norm_num)]
    show (5 : ℝ) - 1 = 4
    norm_num
  have h1 : RayMarcher.sdf Real.sqrt (RayMarcher.default (F := ℝ)) ⟨0, 0, 1⟩ = 0 := by
    rw [rayMarcher_sdf_z_axis _ 1 (by norm_num)]
    show (1 : ℝ) - 1 = 0
    norm_num
  have hstep : Vec3.add (⟨0, 0, 5⟩ : Vec3 ℝ) (Vec3.scale ⟨0, 0, -1⟩ 4) = ⟨0, 0, 1⟩ := by
    simp [Vec3.add, Vec3.scale]
    norm_num
  rw [hn, marchLoop_of_step _ _ _ _ _ _ _ (by rw [h5]; show ¬ (4 : ℝ) < 1 / 100; norm_num)
    (by rw [h5]; show ¬ (100 : ℝ) < 4; norm_num), h5, hstep,
    marchLoop_of_hit _ _ _ _ _ _ _ (by rw [h1]; show (0 : ℝ) < 1 / 100; norm_num)]

theorem scenario_sqrt_bounds :
    1 ≤ Real.sqrt (10001 / 10000) ∧ Real.sqrt (10001 / 10000) ≤ 20001 / 20000 := by
  constructor
  · rw [show (1 : ℝ) = Real.sqrt 1 from Real.sqrt_one.symm]
    exact Real.sqrt_le_sqrt (by norm_num)
  · rw [Real.sqrt_le_left (by norm_num)]
    norm_num

theorem scenario_normalDiff :
    normalDiff (RayMarcher.sdf Real.sqrt (RayMarcher.default (F := ℝ))) ⟨0, 0, 1⟩ (1 / 100)
      = ⟨1 - Real.sqrt (10001 / 10000), 1 - Real.sqrt (10001 / 10000), 1 / 100⟩ := by
  have hx : RayMarcher.sdf Real.sqrt (RayMarcher.default (F := ℝ)) ⟨0 - 1 / 100, 0, 1⟩
      = Real.sqrt (10001 / 10000) - 1 := by
    rw [rayMarcher_sdf_eq]
    show Real.sqrt _ - (1 : ℝ) = _
    norm_num
  have hy : RayMarcher.sdf Real.sqrt (RayMarcher.default (F := ℝ)) ⟨0, 0 - 1 / 100, 1⟩
      = Real.sqrt (10001 / 10000) - 1 := by
    rw [rayMarcher_sdf_eq]
    show Real.sqrt _ - (1 : ℝ) = _
    norm_num
  have hz : RayMarcher.sdf Real.sqrt (RayMarcher.default (F := ℝ)) ⟨0, 0, 1 - 1 / 100⟩
      = -(1 / 100) := by
    rw [rayMarcher_sdf_z_axis _ _ (by norm_num)]
    show (1 : ℝ) - 1 / 100 - 1 = _
    norm_num
  have h1 : RayMarcher.sdf Real.sqrt (RayMarcher.default (F := ℝ)) ⟨0, 0, 1⟩ = 0 := by
    rw [rayMarcher_sdf_z_axis _ 1 (by norm_num)]
    show (1 : ℝ) - 1 = 0
    norm_num
  unfold normalDiff
  rw [hx, hy, hz, h1]
  rw [Vec3.ext_iff3]
  refine ⟨by ring, by ring, by ring⟩

/-- C4: for the unit sphere at the origin and the ray from `(0, 0, 5)` along
`(0, 0, -1)`, under the default configuration (maxray 1000, distthres 0.01, maxdist 100,
eps 0.01) `Intersect` reports HIT, the hit point is within 0.01 of `(0, 0, 1)`, and
`GetNormalRM` at the hit point with the default normal of `Intersect` returns a vector
of length 1 whose components are within 0.01 of `(0, 0, 1)`. -/
theorem sphere_scenario_hit_and_normal :
    (RayMarcher.Intersect Real.sqrt (RayMarcher.default (F := ℝ))
        ⟨⟨0, 0, 5⟩, ⟨0, 0, -1⟩⟩).hit = true ∧
    Vec3.Length Real.sqrt (Vec3.sub
        (RayMarcher.Intersect Real.sqrt (RayMarcher.default (F := ℝ))
          ⟨⟨0, 0, 5⟩, ⟨0, 0, -1⟩⟩).point ⟨0, 0, 1⟩) ≤ 1 / 100 ∧
    Vec3.Length Real.sqrt
        (RayMarcher.GetNormalRM Real.sqrt (RayMarcher.default (F := ℝ))
          (RayMarcher.Intersect Real.sqrt (RayMarcher.default (F := ℝ))
            ⟨⟨0, 0, 5⟩, ⟨0, 0, -1⟩⟩).point
          (RayMarcher.default (F := ℝ)).eps
          (Vec3.Normalize Real.sqrt ⟨0, 0, 1⟩)).normal = 1 ∧
    |(RayMarcher.GetNormalRM Real.sqrt (RayMarcher.default (F := ℝ))
          (RayMarcher.Intersect Real.sqrt (RayMarcher.default (F := ℝ))
            ⟨⟨0, 0, 5⟩, ⟨0, 0, -1⟩⟩).point
          (RayMarcher.default (F := ℝ)).eps
          (Vec3.Normalize Real.sqrt ⟨0, 0, 1⟩)).normal.x - 0| ≤ 1 / 100 ∧
    |(RayMarcher.GetNormalRM Real.sqrt (RayMarcher.default (F := ℝ))
          (RayMarcher.Intersect Real.sqrt (RayMarcher.default (F := ℝ))
            ⟨⟨0, 0, 5⟩, ⟨0, 0, -1⟩⟩).point
          (RayMarcher.default (F := ℝ)).eps
          (Vec3.Normalize Real.sqrt ⟨0, 0, 1⟩)).normal.y - 0| ≤ 1 / 100 ∧
    |(RayMarcher.GetNormalRM Real.sqrt (RayMarcher.default (F := ℝ))
          (RayMarcher.Intersect Real.sqrt (RayMarcher.default (F := ℝ))
            ⟨⟨0, 0, 5⟩, ⟨0, 0, -1⟩⟩).point
          (RayMarcher.default (F := ℝ)).eps
          (Vec3.Normalize Real.sqrt ⟨0, 0, 1⟩)).normal.z - 1| ≤ 1 / 100 := by
  rw [scenario_intersect]
  obtain ⟨hlo, hhi⟩ := scenario_sqrt_bounds
  set a : ℝ := Real.sqrt (10001 / 10000) with ha
  have hne : normalDiff (RayMarcher.sdf Real.sqrt (RayMarcher.default (F := ℝ)))
      ⟨0, 0, 1⟩ (1 / 100) ≠ ⟨0, 0, 0⟩ := by
    rw [scenario_normalDiff, Ne, Vec3.ext_iff3]
    rintro ⟨_, _, h⟩
    norm_num at h
  have hN : RayMarcher.GetNormalRM Real.sqrt (RayMarcher.default (F := ℝ)) ⟨0, 0, 1⟩
      (RayMarcher.default (F := ℝ)).eps (Vec3.Normalize Real.sqrt ⟨0, 0, 1⟩)
      = ⟨Vec3.Normalize Real.sqrt ⟨1 - a, 1 - a, 1 / 100⟩, false⟩ := by
    unfold RayMarcher.GetNormalRM
    show GetNormalRM Real.sqrt _ _ (1 / 100) _ = _
    rw [getNormalRM_of_ne _ _ _ _ hne, scenario_normalDiff]
  have hgne : (⟨1 - a, 1 - a, 1 / 100⟩ : Vec3 ℝ) ≠ ⟨0, 0, 0⟩ := by
    rw [← scenario_normalDiff]; exact hne
  set L : ℝ := Vec3.Length Real.sqrt ⟨1 - a, 1 - a, 1 / 100⟩ with hL
  have hLsq : L * L = (1 - a) * (1 - a) + (1 - a) * (1 - a) + 1 / 100 * (1 / 100) :=
    length_mul_self _
  have hL0 : 0 ≤ L := length_nonneg _
  have hLlo : 1 / 100 ≤ L := by
    by_contra hcon
    push_neg at hcon
    nlinarith [mul_self_nonneg (1 - a)]
  have hLhi : L ≤ 101 / 10000 := by
    by_contra hcon
    push_neg at hcon
    nlinarith [mul_self_nonneg (1 - a)]
  have hLpos : 0 < L := by linarith
  refine ⟨rfl, ?_, ?_, ?_, ?_, ?_⟩
  · simp [Vec3.Length, Vec3.LengthSquared, Vec3.sub]
  · rw [hN]
    exact length_normalize _ hgne
  · rw [hN]
    show |(1 - a) * (1 / L) - 0| ≤ 1 / 100
    rw [sub_zero, abs_le]
    have e : (1 - a) * (1 / L) = (1 - a) / L := by ring
    rw [e]
    constructor
    · rw [le_div_iff₀ hLpos]; nlinarith
    · rw [div_le_iff₀ hLpos]; nlinarith
  · rw [hN]
    show |(1 - a) * (1 / L) - 0| ≤ 1 / 100
    rw [sub_zero, abs_le]
    have e : (1 - a) * (1 / L) = (1 - a) / L := by ring
    rw [e]
    constructor
    · rw [le_div_iff₀ hLpos]; nlinarith
    · rw [div_le_iff₀ hLpos]; nlinarith
  · rw [hN]
    show |1 / 100 * (1 / L) - 1| ≤ 1 / 100
    have e : 1 / 100 * (1 / L) - 1 = (1 / 100 - L) / L := by field_simp
    rw [e, abs_le]
    constructor
    · rw [le_div_iff₀ hLpos]; nlinarith
    · rw [div_le_iff₀ hLpos]; nlinarith

end SphereScenario

section SphereEscape

theorem length_add_scale_ge (p dir : Vec3 ℝ) (t : ℝ) (ht : 0 ≤ t)
    (h : 0 ≤ Vec3.dot dir p) :
    Vec3.Length Real.sqrt p ≤ Vec3.Length Real.sqrt (Vec3.add p (Vec3.scale dir t)) := by
  unfold Vec3.Length
  apply Real.sqrt_le_sqrt
  unfold Vec3.dot at h
  simp only [Vec3.LengthSquared, Vec3.add, Vec3.scale]
  nlinarith [mul_nonneg ht h, mul_self_nonneg (dir.x * t), mul_self_nonneg (dir.y * t),
    mul_self_nonneg (dir.z * t)]

theorem dot_add_scale_nonneg (p dir : Vec3 ℝ) (t : ℝ) (ht : 0 ≤ t)
    (h : 0 ≤ Vec3.dot dir p) : 0 ≤ Vec3.dot dir (Vec3.add p (Vec3.scale dir t)) := by
  unfold Vec3.dot at h ⊢
  simp only [Vec3.add, Vec3.scale]
  nlinarith [mul_nonneg ht (mul_self_nonneg dir.x), mul_nonneg ht (mul_self_nonneg dir.y),
    mul_nonneg ht (mul_self_nonneg dir.z)]

theorem dot_normalize_nonneg (d o : Vec3 ℝ) (h : 0 ≤ Vec3.dot d o) :
    0 ≤ Vec3.dot (Vec3.Normalize Real.sqrt d) o := by
  have hinv : 0 ≤ 1 / Vec3.Length Real.sqrt d :=
    div_nonneg zero_le_one (length_nonneg d)
  unfold Vec3.dot at h ⊢
  simp only [Vec3.Normalize]
  have e : d.x * (1 / Vec3.Length Real.sqrt d) * o.x
      + d.y * (1 / Vec3.Length Real.sqrt d) * o.y
      + d.z * (1 / Vec3.Length Real.sqrt d) * o.z
      = (1 / Vec3.Length Real.sqrt d) * (d.x * o.x + d.y * o.y + d.z * o.z) := by ring
  rw [e]
  exact mul_nonneg hinv h

theorem rayMarcher_sdf_eq_length (s : RayMarcher ℝ) (p : Vec3 ℝ) :
    RayMarcher.sdf Real.sqrt s p = Vec3.Length Real.sqrt p - s.radius := by
  simp [RayMarcher.sdf, Vec3.Length, Vec3.LengthSquared, Vec3.sub]

/-- Marching away from the sphere: the direction keeps pointing away, the distance
stays at or above the threshold, and each distance is at most the next. -/
theorem escape_invariant (s : RayMarcher ℝ) (dir o : Vec3 ℝ) (t : ℝ) (ht : 0 < t)
    (h0 : t ≤ RayMarcher.sdf Real.sqrt s o) (hdot : 0 ≤ Vec3.dot dir o) :
    ∀ i : Nat,
      0 ≤ Vec3.dot dir (marchPoint (RayMarcher.sdf Real.sqrt s) dir o i) ∧
      t ≤ marchDist (RayMarcher.sdf Real.sqrt s) dir o i ∧
      marchDist (RayMarcher.sdf Real.sqrt s) dir o i
        ≤ marchDist (RayMarcher.sdf Real.sqrt s) dir o (i + 1) := by
  have step : ∀ p : Vec3 ℝ, 0 ≤ Vec3.dot dir p → t ≤ RayMarcher.sdf Real.sqrt s p →
      RayMarcher.sdf Real.sqrt s p
        ≤ RayMarcher.sdf Real.sqrt s
            (Vec3.add p (Vec3.scale dir (RayMarcher.sdf Real.sqrt s p))) := by
    intro p hp hd
    have := length_add_scale_ge p dir (RayMarcher.sdf Real.sqrt s p) (by linarith) hp
    rw [rayMarcher_sdf_eq_length s p, rayMarcher_sdf_eq_length s (Vec3.add _ _)] at *
    linarith
  intro i
  induction i with
  | zero => exact ⟨hdot, h0, step o hdot h0⟩
  | succ k ih =>
    obtain ⟨hk1, hk2, hk3⟩ := ih
    have hd1 : 0 ≤ Vec3.dot dir (marchPoint (RayMarcher.sdf Real.sqrt s) dir o (k + 1)) :=
      dot_add_scale_nonneg _ dir _ (by unfold marchDist at hk2; linarith) hk1
    have hd2 : t ≤ marchDist (RayMarcher.sdf Real.sqrt s) dir o (k + 1) := le_trans hk2 hk3
    exact ⟨hd1, hd2, step _ hd1 hd2⟩

/-- C5: for every ray whose origin lies outside the `RayMarcher` sphere with
`sdf(o) >= distthres > 0` and whose direction points away from the centre
(`d · o >= 0`), the marched distances never decrease, no step is below the threshold,
and `Intersect` reports MISS, whatever `maxray` and `maxdist` are. -/
theorem sphere_escape_miss (s : RayMarcher ℝ) (r : Ray ℝ) (hthres : 0 < s.distthres)
    (hout : s.distthres ≤ RayMarcher.sdf Real.sqrt s r.o) (haway : 0 ≤ Vec3.dot r.d r.o) :
    (∀ i : Nat,
      marchDist (RayMarcher.sdf Real.sqrt s) (Vec3.Normalize Real.sqrt r.d) r.o i
        ≤ marchDist (RayMarcher.sdf Real.sqrt s) (Vec3.Normalize Real.sqrt r.d) r.o (i + 1)) ∧
    (∀ i : Nat,
      ¬ marchDist (RayMarcher.sdf Real.sqrt s) (Vec3.Normalize Real.sqrt r.d) r.o i
        < s.distthres) ∧
    (RayMarcher.Intersect Real.sqrt s r).hit = false := by
  have inv := escape_invariant s (Vec3.Normalize Real.sqrt r.d) r.o s.distthres hthres hout
    (dot_normalize_nonneg r.d r.o haway)
  refine ⟨fun i => (inv i).2.2, fun i => not_lt.mpr (inv i).2.1, ?_⟩
  cases hh : (RayMarcher.Intersect Real.sqrt s r).hit with
  | false => rfl
  | true =>
    unfold RayMarcher.Intersect at hh
    obtain ⟨i, _, hd, _⟩ := (intersect_hit_iff_aux _ _ _ _ _ _).mp hh
    exact absurd hd (not_lt.mpr (inv i).2.1)

/-- The default sphere seen from `(0, 0, 5)` looking along `+z`: the ray leaves the
sphere behind and the marcher reports MISS. -/
theorem sphere_escape_miss_witness :
    (RayMarcher.Intersect Real.sqrt (RayMarcher.default (F := ℝ))
      ⟨⟨0, 0, 5⟩, ⟨0, 0, 1⟩⟩).hit = false := by
  have h5 : RayMarcher.sdf Real.sqrt (RayMarcher.default (F := ℝ)) ⟨0, 0, 5⟩ = 4 := by
    rw [rayMarcher_sdf_z_axis _ 5 (by norm_num)]
    show (5 : ℝ) - 1 = 4
    norm_num
  refine (sphere_escape_miss (RayMarcher.default (F := ℝ)) ⟨⟨0, 0, 5⟩, ⟨0, 0, 1⟩⟩
    ?_ ?_ ?_).2.2
  · show (0 : ℝ) < 1 / 100
    norm_num
  · rw [h5]
    show (1 / 100 : ℝ) ≤ 4
    norm_num
  · simp [Vec3.dot]

end SphereEscape

section SphereAnalytic

theorem add_scale_zero (o dir : Vec3 ℝ) : Vec3.add o (Vec3.scale dir 0) = o := by
  rw [Vec3.ext_iff3]
  simp [Vec3.add, Vec3.scale]

theorem add_scale_add (o dir : Vec3 ℝ) (a b : ℝ) :
    Vec3.add (Vec3.add o (Vec3.scale dir a)) (Vec3.scale dir b)
      = Vec3.add o (Vec3.scale dir (a + b)) := by
  rw [Vec3.ext_iff3]
  simp only [Vec3.add, Vec3.scale]
  refine ⟨by ring, by ring, by ring⟩

/-- A point of the ray before a point of the sphere is no farther from the sphere than
the stretch of ray between them. -/
theorem sdf_le_remaining (s : RayMarcher ℝ) (r : Ray ℝ) (T : ℝ)
    (hon : Vec3.Length Real.sqrt
      (Vec3.add r.o (Vec3.scale (Vec3.Normalize Real.sqrt r.d) T)) = s.radius)
    (t : ℝ) (ht : t ≤ T) :
    RayMarcher.sdf Real.sqrt s (Vec3.add r.o (Vec3.scale (Vec3.Normalize Real.sqrt r.d) t))
      ≤ T - t := by
  rw [rayMarcher_sdf_eq_length, ← hon, length_eq_norm, length_eq_norm, asEuclidean_add,
    asEuclidean_add, asEuclidean_scale, asEuclidean_scale]
  have hdir : ‖asEuclidean (Vec3.Normalize Real.sqrt r.d)‖ ≤ 1 := by
    rw [← length_eq_norm]; exact length_normalize_le_one r.d
  set O := asEuclidean r.o
  set D := asEuclidean (Vec3.Normalize Real.sqrt r.d)
  have e : O + t • D = (O + T • D) + (t - T) • D := by
    rw [sub_smul]; abel
  have h1 : ‖O + t • D‖ ≤ ‖O + T • D‖ + ‖(t - T) • D‖ := by
    rw [e]; exact norm_add_le _ _
  have h2 : ‖(t - T) • D‖ ≤ T - t := by
    rw [norm_smul, Real.norm_eq_abs, abs_of_nonpos (by linarith)]
    have : 0 ≤ T - t := by linarith
    nlinarith [norm_nonneg D]
  linarith

/-- The loop started on the ray with less than `n * distthres` of ray left before a
point of the sphere hits, at a point of the ray at or before that point. -/
theorem marchLoop_reaches (s : RayMarcher ℝ) (r : Ray ℝ) (T thres maxd : ℝ)
    (hth : 0 < thres)
    (hon : Vec3.Length Real.sqrt
      (Vec3.add r.o (Vec3.scale (Vec3.Normalize Real.sqrt r.d) T)) = s.radius) :
    ∀ (n : Nat) (t : ℝ) (e : Nat), t ≤ T → T - t < n * thres → T - t ≤ maxd →
      ∃ t' : ℝ, t ≤ t' ∧ t' ≤ T ∧
        (marchLoop (RayMarcher.sdf Real.sqrt s) (Vec3.Normalize Real.sqrt r.d) thres maxd n
          (Vec3.add r.o (Vec3.scale (Vec3.Normalize Real.sqrt r.d) t)) e).hit = true ∧
        (marchLoop (RayMarcher.sdf Real.sqrt s) (Vec3.Normalize Real.sqrt r.d) thres maxd n
          (Vec3.add r.o (Vec3.scale (Vec3.Normalize Real.sqrt r.d) t)) e).point
          = Vec3.add r.o (Vec3.scale (Vec3.Normalize Real.sqrt r.d) t') ∧
        RayMarcher.sdf Real.sqrt s
          (Vec3.add r.o (Vec3.scale (Vec3.Normalize Real.sqrt r.d) t')) < thres := by
  intro n
  induction n with
  | zero =>
    intro t e ht hbud _
    simp at hbud
    linarith
  | succ k ih =>
    intro t e ht hbud hmax
    have hP := sdf_le_remaining s r T hon t ht
    by_cases h1 : RayMarcher.sdf Real.sqrt s
        (Vec3.add r.o (Vec3.scale (Vec3.Normalize Real.sqrt r.d) t)) < thres
    · refine ⟨t, le_refl t, ht, ?_, ?_, h1⟩
      · rw [marchLoop_of_hit _ _ _ _ _ _ _ h1]
      · rw [marchLoop_of_hit _ _ _ _ _ _ _ h1]
    · have h2 : ¬ maxd < RayMarcher.sdf Real.sqrt s
          (Vec3.add r.o (Vec3.scale (Vec3.Normalize Real.sqrt r.d) t)) := by
        push_neg; linarith
      rw [marchLoop_of_step _ _ _ _ _ _ _ h1 h2, add_scale_add]
      push_neg at h1
      have hbud' : T - (t + RayMarcher.sdf Real.sqrt s
          (Vec3.add r.o (Vec3.scale (Vec3.Normalize Real.sqrt r.d) t))) < k * thres := by
        push_cast at hbud
        linarith
      obtain ⟨t', h3, h4, h5⟩ := ih _ (e + 1) (by linarith) hbud' (by linarith)
      exact ⟨t', by linarith, h4, h5⟩

/-- Cauchy-Schwarz for the dot product of the model. -/
theorem dot_sq_le (a b : Vec3 ℝ) :
    Vec3.dot a b * Vec3.dot a b ≤ Vec3.LengthSquared a * Vec3.LengthSquared b := by
  unfold Vec3.dot Vec3.LengthSquared
  nlinarith [mul_self_nonneg (a.x * b.y - a.y * b.x), mul_self_nonneg (a.x * b.z - a.z * b.x),
    mul_self_nonneg (a.y * b.z - a.z * b.y)]

/-- With `q` on the sphere and `p` the point `u` before `q` on the ray, the distance of
`p` from the sphere bounds `u` times the inward component of the direction at `q`. -/
theorem incidence_bound (dir o : Vec3 ℝ) (t T radius : ℝ) (htT : t ≤ T)
    (hon : Vec3.Length Real.sqrt (Vec3.add o (Vec3.scale dir T)) = radius) :
    (T - t) * -(Vec3.dot dir (Vec3.add o (Vec3.scale dir T)))
      ≤ radius * (Vec3.Length Real.sqrt (Vec3.add o (Vec3.scale dir t)) - radius) := by
  set q := Vec3.add o (Vec3.scale dir T) with hq
  set p := Vec3.add o (Vec3.scale dir t) with hp
  have hr : 0 ≤ radius := by rw [← hon]; exact length_nonneg q
  have hqsq : Vec3.LengthSquared q = radius * radius := by rw [← hon, length_mul_self]
  have hL := length_mul_self p
  have hL0 := length_nonneg p
  set u := T - t with hu
  have hu0 : 0 ≤ u := by linarith
  set c := -(Vec3.dot dir q) with hc
  -- |p|² = |q|² + 2 u c + u² |dir|²
  have hpsq : Vec3.LengthSquared p
      = radius * radius + 2 * u * c + u * u * Vec3.LengthSquared dir := by
    rw [← hqsq, hc, hu, hp, hq]
    simp only [Vec3.LengthSquared, Vec3.dot, Vec3.add, Vec3.scale]
    ring
  have hcs : c * c ≤ Vec3.LengthSquared dir * (radius * radius) := by
    rw [← hqsq, hc]
    have := dot_sq_le dir q
    linarith
  by_cases hneg : radius * radius + u * c ≤ 0
  · have : 0 ≤ radius * Vec3.Length Real.sqrt p := mul_nonneg hr hL0
    linarith
  · push_neg at hneg
    have hsq : (radius * radius + u * c) * (radius * radius + u * c)
        ≤ (radius * Vec3.Length Real.sqrt p) * (radius * Vec3.Length Real.sqrt p) := by
      have e1 : (radius * Vec3.Length Real.sqrt p) * (radius * Vec3.Length Real.sqrt p)
          = radius * radius * Vec3.LengthSquared p := by rw [← hL]; ring
      rw [e1, hpsq]
      nlinarith [mul_nonneg (mul_nonneg hu0 hu0) (sub_nonneg.mpr hcs)]
    have := abs_le_of_sq_le_sq' (by nlinarith) (mul_nonneg hr hL0)
      (a := radius * radius + u * c)
    linarith [this.2]

theorem normalize_pos_x : Vec3.Normalize Real.sqrt (⟨1, 0, 0⟩ : Vec3 ℝ) = ⟨1, 0, 0⟩ := by
  simp [Vec3.Normalize, Vec3.Length, Vec3.LengthSquared]

/-- Between the origin and a point of the sphere the distance to the sphere is at most
the first distance, or 0 when the origin is inside. -/
theorem sdf_le_first (s : RayMarcher ℝ) (r : Ray ℝ) (T : ℝ)
    (hon : Vec3.Length Real.sqrt
      (Vec3.add r.o (Vec3.scale (Vec3.Normalize Real.sqrt r.d) T)) = s.radius)
    (t : ℝ) (ht0 : 0 ≤ t) (ht : t ≤ T) :
    RayMarcher.sdf Real.sqrt s (Vec3.add r.o (Vec3.scale (Vec3.Normalize Real.sqrt r.d) t))
      ≤ max (RayMarcher.sdf Real.sqrt s r.o) 0 := by
  rcases eq_or_lt_of_le (le_trans ht0 ht) with hT | hT
  · have : t = 0 := le_antisymm (by rw [hT]; exact ht) ht0
    rw [this, add_scale_zero]
    exact le_max_left _ _
  · rw [rayMarcher_sdf_eq_length, rayMarcher_sdf_eq_length, ← hon, length_eq_norm,
      length_eq_norm, length_eq_norm, asEuclidean_add, asEuclidean_add, asEuclidean_scale,
      asEuclidean_scale]
    set O := asEuclidean r.o
    set D := asEuclidean (Vec3.Normalize Real.sqrt r.d)
    have hl0 : 0 ≤ t / T := div_nonneg ht0 (le_of_lt hT)
    have hl1 : t / T ≤ 1 := (div_le_one hT).mpr ht
    have e : O + t • D = (1 - t / T) • O + (t / T) • (O + T • D) := by
      rw [smul_add, smul_smul, div_mul_cancel₀ t (ne_of_gt hT), sub_smul, one_smul]
      abel
    have h1 : ‖O + t • D‖ ≤ (1 - t / T) * ‖O‖ + t / T * ‖O + T • D‖ := by
      rw [e]
      refine le_trans (norm_add_le _ _) ?_
      rw [norm_smul, norm_smul, Real.norm_eq_abs, Real.norm_eq_abs,
        abs_of_nonneg (by linarith), abs_of_nonneg hl0]
    have h2 : ‖O + t • D‖ - ‖O + T • D‖ ≤ (1 - t / T) * (‖O‖ - ‖O + T • D‖) := by
      nlinarith
    rcases le_total (‖O‖ - ‖O + T • D‖) 0 with hneg | hpos
    · refine le_trans h2 (le_trans ?_ (le_max_right _ _))
      exact mul_nonpos_of_nonneg_of_nonpos (by linarith) hneg
    · refine le_trans h2 (le_trans ?_ (le_max_left _ _))
      nlinarith

theorem incidenceCos_le_one (s : RayMarcher ℝ) (r : Ray ℝ) (q : Vec3 ℝ)
    (hon : Vec3.Length Real.sqrt q = s.radius) :
    incidenceCos Real.sqrt s.radius r q ≤ 1 := by
  unfold incidenceCos
  have hr : 0 ≤ s.radius := by rw [← hon]; exact length_nonneg q
  rcases eq_or_lt_of_le hr with h0 | hpos
  · rw [← h0]; simp
  · rw [div_le_one hpos]
    have hcs := dot_sq_le (Vec3.Normalize Real.sqrt r.d) q
    have hq : Vec3.LengthSquared q = s.radius * s.radius := by rw [← hon, length_mul_self]
    have hd1 := length_normalize_le_one r.d
    have hd0 := length_nonneg (Vec3.Normalize Real.sqrt r.d)
    have hd : Vec3.LengthSquared (Vec3.Normalize Real.sqrt r.d) ≤ 1 := by
      rw [← length_mul_self]; nlinarith
    have hq0 : 0 ≤ Vec3.LengthSquared q := lengthSquared_nonneg q
    have hsq : Vec3.dot (Vec3.Normalize Real.sqrt r.d) q
        * Vec3.dot (Vec3.Normalize Real.sqrt r.d) q ≤ s.radius * s.radius := by
      rw [← hq]; nlinarith
    nlinarith [abs_le_of_sq_le_sq' (by nlinarith) hr
      (a := Vec3.dot (Vec3.Normalize Real.sqrt r.d) q)]

/-- At a point of the ray `T - t` before a point `q` of the sphere, the distance to the
sphere is at least `(T - t)` times the cosine of the angle of incidence at `q`. -/
theorem incidence_cos_bound (s : RayMarcher ℝ) (r : Ray ℝ) (T : ℝ)
    (hon : Vec3.Length Real.sqrt
      (Vec3.add r.o (Vec3.scale (Vec3.Normalize Real.sqrt r.d) T)) = s.radius)
    (t : ℝ) (ht : t ≤ T) :
    (T - t) * incidenceCos Real.sqrt s.radius r
        (Vec3.add r.o (Vec3.scale (Vec3.Normalize Real.sqrt r.d) T))
      ≤ RayMarcher.sdf Real.sqrt s
          (Vec3.add r.o (Vec3.scale (Vec3.Normalize Real.sqrt r.d) t)) := by
  have hb := incidence_bound (Vec3.Normalize Real.sqrt r.d) r.o t T s.radius ht hon
  rw [← rayMarcher_sdf_eq_length] at hb
  have hr : 0 ≤ s.radius := by rw [← hon]; exact length_nonneg _
  unfold incidenceCos
  rcases eq_or_lt_of_le hr with h0 | hpos
  · rw [← h0, div_zero, mul_zero, rayMarcher_sdf_eq_length, ← h0, sub_zero]
    exact length_nonneg _
  · rw [← mul_div_assoc, div_le_iff₀ hpos]
    linarith

/-- A hit of the loop started on the ray at or before a point of the sphere is at a
point of the ray at or before that point. -/
theorem marchLoop_hit_on_ray (s : RayMarcher ℝ) (r : Ray ℝ) (T thres maxd : ℝ)
    (hth : 0 < thres)
    (hon : Vec3.Length Real.sqrt
      (Vec3.add r.o (Vec3.scale (Vec3.Normalize Real.sqrt r.d) T)) = s.radius) :
    ∀ (n : Nat) (t : ℝ) (e : Nat), t ≤ T →
      (marchLoop (RayMarcher.sdf Real.sqrt s) (Vec3.Normalize Real.sqrt r.d) thres maxd n
        (Vec3.add r.o (Vec3.scale (Vec3.Normalize Real.sqrt r.d) t)) e).hit = true →
      ∃ t' : ℝ, t ≤ t' ∧ t' ≤ T ∧
        (marchLoop (RayMarcher.sdf Real.sqrt s) (Vec3.Normalize Real.sqrt r.d) thres maxd n
          (Vec3.add r.o (Vec3.scale (Vec3.Normalize Real.sqrt r.d) t)) e).point
          = Vec3.add r.o (Vec3.scale (Vec3.Normalize Real.sqrt r.d) t') ∧
        RayMarcher.sdf Real.sqrt s
          (Vec3.add r.o (Vec3.scale (Vec3.Normalize Real.sqrt r.d) t')) < thres := by
  intro n
  induction n with
  | zero =>
    intro t e _ h
    simp [marchLoop] at h
  | succ k ih =>
    intro t e ht h
    by_cases h1 : RayMarcher.sdf Real.sqrt s
        (Vec3.add r.o (Vec3.scale (Vec3.Normalize Real.sqrt r.d) t)) < thres
    · refine ⟨t, le_refl t, ht, ?_, h1⟩
      rw [marchLoop_of_hit _ _ _ _ _ _ _ h1]
    · by_cases h2 : maxd < RayMarcher.sdf Real.sqrt s
          (Vec3.add r.o (Vec3.scale (Vec3.Normalize Real.sqrt r.d) t))
      · rw [marchLoop_of_escape _ _ _ _ _ _ _ h1 h2] at h
        exact absurd h (by simp)
      · rw [marchLoop_of_step _ _ _ _ _ _ _ h1 h2, add_scale_add] at h ⊢
        have hP := sdf_le_remaining s r T hon t ht
        push_neg at h1
        obtain ⟨t', h3, h4, h5⟩ := ih _ (e + 1) (by linarith) h
        exact ⟨t', by linarith, h4, h5⟩

/-- The loop started on the ray, where no distance up to the point `q` of the sphere
exceeds `maxd`, hits as soon as the remaining stretch, shrunk `j` times by the factor
`1 - cos`, is below the `n - j` thresholds the remaining steps can cover. -/
theorem marchLoop_reaches_geometric (s : RayMarcher ℝ) (r : Ray ℝ) (T thres maxd : ℝ)
    (hth : 0 < thres)
    (hon : Vec3.Length Real.sqrt
      (Vec3.add r.o (Vec3.scale (Vec3.Normalize Real.sqrt r.d) T)) = s.radius)
    (hno : ∀ t : ℝ, 0 ≤ t → t ≤ T →
      RayMarcher.sdf Real.sqrt s
        (Vec3.add r.o (Vec3.scale (Vec3.Normalize Real.sqrt r.d) t)) ≤ maxd) :
    ∀ (j n : Nat) (t : ℝ) (e : Nat), j ≤ n → 0 ≤ t → t ≤ T →
      (T - t) * (1 - incidenceCos Real.sqrt s.radius r
          (Vec3.add r.o (Vec3.scale (Vec3.Normalize Real.sqrt r.d) T))) ^ j
        < ((n : ℝ) - j) * thres →
      (marchLoop (RayMarcher.sdf Real.sqrt s) (Vec3.Normalize Real.sqrt r.d) thres maxd n
        (Vec3.add r.o (Vec3.scale (Vec3.Normalize Real.sqrt r.d) t)) e).hit = true := by
  have hc1 := incidenceCos_le_one s r _ hon
  set c := incidenceCos Real.sqrt s.radius r
    (Vec3.add r.o (Vec3.scale (Vec3.Normalize Real.sqrt r.d) T)) with hc
  have hc0 : 0 ≤ 1 - c := by linarith
  -- the linear budget: each step that does not hit covers at least one threshold
  have linear : ∀ (n : Nat) (t : ℝ) (e : Nat), 0 ≤ t → t ≤ T → T - t < (n : ℝ) * thres →
      (marchLoop (RayMarcher.sdf Real.sqrt s) (Vec3.Normalize Real.sqrt r.d) thres maxd n
        (Vec3.add r.o (Vec3.scale (Vec3.Normalize Real.sqrt r.d) t)) e).hit = true := by
    intro n
    induction n with
    | zero =>
      intro t e _ ht hbud
      simp at hbud
      linarith
    | succ k ih =>
      intro t e ht0 ht hbud
      by_cases h1 : RayMarcher.sdf Real.sqrt s
          (Vec3.add r.o (Vec3.scale (Vec3.Normalize Real.sqrt r.d) t)) < thres
      · rw [marchLoop_of_hit _ _ _ _ _ _ _ h1]
      · have h2 : ¬ maxd < RayMarcher.sdf Real.sqrt s
            (Vec3.add r.o (Vec3.scale (Vec3.Normalize Real.sqrt r.d) t)) :=
          not_lt.mpr (hno t ht0 ht)
        rw [marchLoop_of_step _ _ _ _ _ _ _ h1 h2, add_scale_add]
        have hP := sdf_le_remaining s r T hon t ht
        push_neg at h1
        push_cast at hbud
        exact ih _ (e + 1) (by linarith) (by linarith) (by linarith)
  intro j
  induction j with
  | zero =>
    intro n t e _ ht0 ht hbud
    simp only [pow_zero, mul_one, Nat.cast_zero, sub_zero] at hbud
    exact linear n t e ht0 ht hbud
  | succ i ih =>
    intro n t e hjn ht0 ht hbud
    obtain ⟨m, rfl⟩ : ∃ m, n = m + 1 := ⟨n - 1, by omega⟩
    by_cases h1 : RayMarcher.sdf Real.sqrt s
        (Vec3.add r.o (Vec3.scale (Vec3.Normalize Real.sqrt r.d) t)) < thres
    · rw [marchLoop_of_hit _ _ _ _ _ _ _ h1]
    · have h2 : ¬ maxd < RayMarcher.sdf Real.sqrt s
          (Vec3.add r.o (Vec3.scale (Vec3.Normalize Real.sqrt r.d) t)) :=
        not_lt.mpr (hno t ht0 ht)
      rw [marchLoop_of_step _ _ _ _ _ _ _ h1 h2, add_scale_add]
      have hP := sdf_le_remaining s r T hon t ht
      have hI := incidence_cos_bound s r T hon t ht
      rw [← hc] at hI
      push_neg at h1
      apply ih m _ (e + 1) (by omega) (by linarith) (by linarith)
      have hpow : 0 ≤ (1 - c) ^ i := pow_nonneg hc0 i
      have hshrink : T - (t + RayMarcher.sdf Real.sqrt s
          (Vec3.add r.o (Vec3.scale (Vec3.Normalize Real.sqrt r.d) t)))
          ≤ (T - t) * (1 - c) := by linarith
      calc (T - (t + RayMarcher.sdf Real.sqrt s
              (Vec3.add r.o (Vec3.scale (Vec3.Normalize Real.sqrt r.d) t)))) * (1 - c) ^ i
          ≤ (T - t) * (1 - c) * (1 - c) ^ i := mul_le_mul_of_nonneg_right hshrink hpow
        _ = (T - t) * (1 - c) ^ (i + 1) := by rw [pow_succ]; ring
        _ < (((m + 1 : Nat) : ℝ) - ((i + 1 : Nat) : ℝ)) * thres := hbud
        _ = ((m : ℝ) - (i : ℝ)) * thres := by push_cast; ring

/-- Where no distance up to `q` exceeds `maxd`, the loop hits as soon as one of the
marched distances of its `n` steps is below the threshold. -/
theorem marchLoop_hit_of_some_below (s : RayMarcher ℝ) (r : Ray ℝ) (T thres maxd : ℝ)
    (hth : 0 < thres)
    (hon : Vec3.Length Real.sqrt
      (Vec3.add r.o (Vec3.scale (Vec3.Normalize Real.sqrt r.d) T)) = s.radius)
    (hno : ∀ t : ℝ, 0 ≤ t → t ≤ T →
      RayMarcher.sdf Real.sqrt s
        (Vec3.add r.o (Vec3.scale (Vec3.Normalize Real.sqrt r.d) t)) ≤ maxd) :
    ∀ (n : Nat) (t : ℝ) (e : Nat), 0 ≤ t → t ≤ T →
      (∃ i, i < n ∧ marchDist (RayMarcher.sdf Real.sqrt s) (Vec3.Normalize Real.sqrt r.d)
        (Vec3.add r.o (Vec3.scale (Vec3.Normalize Real.sqrt r.d) t)) i < thres) →
      (marchLoop (RayMarcher.sdf Real.sqrt s) (Vec3.Normalize Real.sqrt r.d) thres maxd n
        (Vec3.add r.o (Vec3.scale (Vec3.Normalize Real.sqrt r.d) t)) e).hit = true := by
  intro n
  induction n with
  | zero =>
    rintro t e _ _ ⟨i, hi, _⟩
    exact absurd hi (Nat.not_lt_zero i)
  | succ k ih =>
    rintro t e ht0 ht ⟨i, hi, hd⟩
    by_cases h1 : RayMarcher.sdf Real.sqrt s
        (Vec3.add r.o (Vec3.scale (Vec3.Normalize Real.sqrt r.d) t)) < thres
    · rw [marchLoop_of_hit _ _ _ _ _ _ _ h1]
    · have h2 : ¬ maxd < RayMarcher.sdf Real.sqrt s
          (Vec3.add r.o (Vec3.scale (Vec3.Normalize Real.sqrt r.d) t)) :=
        not_lt.mpr (hno t ht0 ht)
      rw [marchLoop_of_step _ _ _ _ _ _ _ h1 h2, add_scale_add]
      have hP := sdf_le_remaining s r T hon t ht
      cases i with
      | zero => exact absurd hd h1
      | succ i' =>
        rw [marchDist_shift, add_scale_add] at hd
        push_neg at h1
        exact ih _ (e + 1) (by linarith) (by linarith) ⟨i', Nat.lt_of_succ_lt_succ hi, hd⟩

/-- The loop started on a stretch of ray where every distance is at least the threshold
and at most `δ` cannot leave the stretch in `n` steps of at most `δ`, and misses. -/
theorem marchLoop_miss_of_slow (sdf : Vec3 ℝ → ℝ) (dir o : Vec3 ℝ) (thres maxd δ B : ℝ)
    (hth : 0 ≤ thres) (hδ : 0 ≤ δ)
    (hslow : ∀ t : ℝ, 0 ≤ t → t ≤ B →
      thres ≤ sdf (Vec3.add o (Vec3.scale dir t)) ∧
      sdf (Vec3.add o (Vec3.scale dir t)) ≤ δ) :
    ∀ (n : Nat) (t : ℝ) (e : Nat), 0 ≤ t → t + n * δ ≤ B →
      (marchLoop sdf dir thres maxd n (Vec3.add o (Vec3.scale dir t)) e).hit = false := by
  intro n
  induction n with
  | zero => intro t e _ _; rfl
  | succ k ih =>
    intro t e ht0 hB
    push_cast at hB
    have htB : t ≤ B := by nlinarith [mul_nonneg (Nat.cast_nonneg k : (0 : ℝ) ≤ k) hδ]
    obtain ⟨hlo, hhi⟩ := hslow t ht0 htB
    have h1 : ¬ sdf (Vec3.add o (Vec3.scale dir t)) < thres := not_lt.mpr hlo
    by_cases h2 : maxd < sdf (Vec3.add o (Vec3.scale dir t))
    · rw [marchLoop_of_escape _ _ _ _ _ _ _ h1 h2]
    · rw [marchLoop_of_step _ _ _ _ _ _ _ h1 h2, add_scale_add]
      exact ih _ (e + 1) (by linarith) (by nlinarith)

theorem length_sub_on_ray (o dir : Vec3 ℝ) (hdir : Vec3.Length Real.sqrt dir ≤ 1)
    (t T : ℝ) (ht : t ≤ T) :
    Vec3.Length Real.sqrt
      (Vec3.sub (Vec3.add o (Vec3.scale dir t)) (Vec3.add o (Vec3.scale dir T))) ≤ T - t := by
  rw [length_eq_norm, asEuclidean_sub, asEuclidean_add, asEuclidean_add, asEuclidean_scale,
    asEuclidean_scale]
  have hd : ‖asEuclidean dir‖ ≤ 1 := by rw [← length_eq_norm]; exact hdir
  have e : asEuclidean o + t • asEuclidean dir - (asEuclidean o + T • asEuclidean dir)
      = (t - T) • asEuclidean dir := by
    rw [sub_smul]; abel
  rw [e, norm_smul, Real.norm_eq_abs, abs_of_nonpos (by linarith)]
  nlinarith [norm_nonneg (asEuclidean dir)]

/-- C3, as the code has it.  With the documented configuration (maxray 1000, distthres
0.01, maxdist 100), for every ray that meets the `RayMarcher` sphere at a point `q` at
ray distance `T >= 0` from its origin `o`:
* if the first distance `sdf(o)` exceeds `maxdist`, `Intersect` reports MISS;
* if it does not, no point of the ray up to `q` is farther than `maxdist` from the
  sphere, and `Intersect` reports HIT exactly when one of the first 1000 marched
  distances is below `distthres`;
* that is the case whenever `T (1 - cos)^j < (1000 - j) distthres` for some
  `j <= 1000`, `cos` being the cosine of the angle of incidence at `q`: for every ray
  that meets the sphere head-on, and for every ray with `T < 10`;
* on a HIT the reported point lies on the ray at some `t` with `0 <= t <= T`, no
  farther than `T - t` from `q`, with `sdf(point) < distthres` and
  `(T - t) cos <= sdf(point)`: within `distthres / cos` of `q`, and within `distthres`
  of `q` for a ray that meets the sphere head-on. -/
theorem marcher_hits_near_intersection (s : RayMarcher ℝ) (r : Ray ℝ) (q : Vec3 ℝ) (T : ℝ)
    (hmaxray : s.maxray = 1000) (hthres : s.distthres = 1 / 100) (hmaxdist : s.maxdist = 100)
    (hT0 : 0 ≤ T)
    (hq : q = Vec3.add r.o (Vec3.scale (Vec3.Normalize Real.sqrt r.d) T))
    (hon : Vec3.Length Real.sqrt q = s.radius) :
    (s.maxdist < RayMarcher.sdf Real.sqrt s r.o →
      (RayMarcher.Intersect Real.sqrt s r).hit = false) ∧
    (RayMarcher.sdf Real.sqrt s r.o ≤ s.maxdist →
      (∀ t : ℝ, 0 ≤ t → t ≤ T →
        RayMarcher.sdf Real.sqrt s
          (Vec3.add r.o (Vec3.scale (Vec3.Normalize Real.sqrt r.d) t)) ≤ s.maxdist) ∧
      ((RayMarcher.Intersect Real.sqrt s r).hit = true ↔
        ∃ i : Nat, i < 1000 ∧
          marchDist (RayMarcher.sdf Real.sqrt s) (Vec3.Normalize Real.sqrt r.d) r.o i
            < s.distthres)) ∧
    (RayMarcher.sdf Real.sqrt s r.o ≤ s.maxdist →
      (∃ j : Nat, j ≤ 1000 ∧
        T * (1 - incidenceCos Real.sqrt s.radius r q) ^ j
          < ((1000 : ℝ) - j) * s.distthres) →
      (RayMarcher.Intersect Real.sqrt s r).hit = true) ∧
    ((RayMarcher.Intersect Real.sqrt s r).hit = true →
      RayMarcher.sdf Real.sqrt s (RayMarcher.Intersect Real.sqrt s r).point < s.distthres ∧
      ∃ t : ℝ, 0 ≤ t ∧ t ≤ T ∧
        (RayMarcher.Intersect Real.sqrt s r).point
          = Vec3.add r.o (Vec3.scale (Vec3.Normalize Real.sqrt r.d) t) ∧
        Vec3.Length Real.sqrt (Vec3.sub (RayMarcher.Intersect Real.sqrt s r).point q)
          ≤ T - t ∧
        (T - t) * incidenceCos Real.sqrt s.radius r q
          ≤ RayMarcher.sdf Real.sqrt s (RayMarcher.Intersect Real.sqrt s r).point) := by
  subst hq
  have hn : (toInt s.maxray).toNat = 999 + 1 := by
    rw [hmaxray, toInt_thousand]; rfl
  have hth : 0 < s.distthres := by rw [hthres]; norm_num
  have hI : RayMarcher.Intersect Real.sqrt s r
      = marchLoop (RayMarcher.sdf Real.sqrt s) (Vec3.Normalize Real.sqrt r.d) s.distthres
          s.maxdist 1000 (Vec3.add r.o (Vec3.scale (Vec3.Normalize Real.sqrt r.d) 0)) 0 := by
    unfold RayMarcher.Intersect Intersect
    rw [hn, add_scale_zero]
  have hno : RayMarcher.sdf Real.sqrt s r.o ≤ s.maxdist →
      ∀ t : ℝ, 0 ≤ t → t ≤ T →
        RayMarcher.sdf Real.sqrt s
          (Vec3.add r.o (Vec3.scale (Vec3.Normalize Real.sqrt r.d) t)) ≤ s.maxdist := by
    intro h0 t ht0 ht
    refine le_trans (sdf_le_first s r T hon t ht0 ht) (max_le h0 ?_)
    rw [hmaxdist]; norm_num
  refine ⟨?_, ?_, ?_, ?_⟩
  · intro hfar
    have h1 : ¬ RayMarcher.sdf Real.sqrt s r.o < s.distthres := by
      rw [hthres]; rw [hmaxdist] at hfar; push_neg; linarith
    unfold RayMarcher.Intersect Intersect
    simp only []
    rw [hn, marchLoop_of_escape _ _ _ _ _ _ _ h1 hfar]
  · intro h0
    refine ⟨hno h0, ?_⟩
    constructor
    · intro hhit
      unfold RayMarcher.Intersect at hhit
      obtain ⟨i, hi, hd, _⟩ := (intersect_hit_iff_aux _ _ _ _ _ _).mp hhit
      rw [hmaxray, toInt_thousand] at hi
      exact ⟨i, by exact_mod_cast hi, hd⟩
    · rintro ⟨i, hi, hd⟩
      rw [hI]
      apply marchLoop_hit_of_some_below s r T s.distthres s.maxdist hth hon (hno h0) 1000 0 0
        (le_refl 0) hT0
      rw [add_scale_zero]
      exact ⟨i, hi, hd⟩
  · rintro h0 ⟨j, hj, hbud⟩
    rw [hI]
    apply marchLoop_reaches_geometric s r T s.distthres s.maxdist hth hon (hno h0) j 1000 0 0
      hj (le_refl 0) hT0
    rw [sub_zero]
    exact_mod_cast hbud
  · intro hhit
    rw [hI] at hhit ⊢
    obtain ⟨t, ht0, htT, hpt, hsdf⟩ :=
      marchLoop_hit_on_ray s r T s.distthres s.maxdist hth hon 1000 0 0 hT0 hhit
    rw [hpt]
    refine ⟨hsdf, t, ht0, htT, rfl, ?_, ?_⟩
    · exact length_sub_on_ray _ _ (length_normalize_le_one r.d) t T htT
    · exact incidence_cos_bound s r T hon t htT

/-- The head-on ray from `(0, 0, 50)` toward the unit sphere meets it at `(0, 0, 1)`, 49
units away: the marcher reports HIT, and the reported point is within `distthres` of
`(0, 0, 1)`. -/
theorem marcher_hits_near_intersection_witness :
    (RayMarcher.Intersect Real.sqrt (RayMarcher.default (F := ℝ))
      ⟨⟨0, 0, 50⟩, ⟨0, 0, -1⟩⟩).hit = true ∧
    Vec3.Length Real.sqrt (Vec3.sub
      (RayMarcher.Intersect Real.sqrt (RayMarcher.default (F := ℝ))
        ⟨⟨0, 0, 50⟩, ⟨0, 0, -1⟩⟩).point ⟨0, 0, 1⟩) ≤ 1 / 100 := by
  have hq : (⟨0, 0, 1⟩ : Vec3 ℝ) = Vec3.add (⟨⟨0, 0, 50⟩, ⟨0, 0, -1⟩⟩ : Ray ℝ).o
      (Vec3.scale (Vec3.Normalize Real.sqrt (⟨⟨0, 0, 50⟩, ⟨0, 0, -1⟩⟩ : Ray ℝ).d) 49) := by
    rw [normalize_neg_z, Vec3.ext_iff3]
    simp only [Vec3.add, Vec3.scale]
    refine ⟨by norm_num, by norm_num, by norm_num⟩
  have hon : Vec3.Length Real.sqrt (⟨0, 0, 1⟩ : Vec3 ℝ)
      = (RayMarcher.default (F := ℝ)).radius := by
    show Vec3.Length Real.sqrt ⟨0, 0, 1⟩ = (1 : ℝ)
    simp [Vec3.Length, Vec3.LengthSquared]
  have hcos : incidenceCos Real.sqrt (RayMarcher.default (F := ℝ)).radius
      ⟨⟨0, 0, 50⟩, ⟨0, 0, -1⟩⟩ ⟨0, 0, 1⟩ = 1 := by
    unfold incidenceCos
    rw [normalize_neg_z]
    show -(Vec3.dot (⟨0, 0, -1⟩ : Vec3 ℝ) ⟨0, 0, 1⟩) / (1 : ℝ) = 1
    simp [Vec3.dot]
  have h50 : RayMarcher.sdf Real.sqrt (RayMarcher.default (F := ℝ)) ⟨0, 0, 50⟩ = 49 := by
    rw [rayMarcher_sdf_z_axis _ 50 (by norm_num)]
    show (50 : ℝ) - 1 = 49
    norm_num
  have h := marcher_hits_near_intersection (RayMarcher.default (F := ℝ))
    ⟨⟨0, 0, 50⟩, ⟨0, 0, -1⟩⟩ ⟨0, 0, 1⟩ 49 rfl rfl rfl (by norm_num) hq hon
  have hfirst : RayMarcher.sdf Real.sqrt (RayMarcher.default (F := ℝ))
      (⟨⟨0, 0, 50⟩, ⟨0, 0, -1⟩⟩ : Ray ℝ).o ≤ (RayMarcher.default (F := ℝ)).maxdist := by
    show RayMarcher.sdf Real.sqrt (RayMarcher.default (F := ℝ)) ⟨0, 0, 50⟩ ≤ (100 : ℝ)
    rw [h50]; norm_num
  have hhit := h.2.2.1 hfirst ⟨1, by norm_num, by
    rw [hcos]
    show (49 : ℝ) * (1 - 1) ^ 1 < ((1000 : ℝ) - ((1 : Nat) : ℝ)) * (1 / 100)
    norm_num⟩
  refine ⟨hhit, ?_⟩
  obtain ⟨hs, t, _, _, _, hlen, hinc⟩ := h.2.2.2 hhit
  rw [hcos, mul_one] at hinc
  have hs' : RayMarcher.sdf Real.sqrt (RayMarcher.default (F := ℝ))
      (RayMarcher.Intersect Real.sqrt (RayMarcher.default (F := ℝ))
        ⟨⟨0, 0, 50⟩, ⟨0, 0, -1⟩⟩).point < 1 / 100 := hs
  linarith

/-- C3 fails as stated, in three ways, each with the documented configuration.
The ray from `(0, 0, 200)` along `-z` meets the unit sphere at its nearest intersection
`(0, 0, 1)`, yet the first distance, 199, is beyond `maxdist = 100` and the marcher
reports MISS.  The ray from `(-0.616, 0, 0.8)` along `+x` meets the unit sphere at its
nearest intersection `(-0.6, 0, 0.8)`; the marcher reports HIT at the ray origin, which
is 0.016 away from that point, more than `distthres = 0.01`.  The ray from
`(-21000, 0, 99999999)` along `+x` meets the sphere of radius 100000001 at its nearest
intersection `(-20000, 0, 99999999)`, 1000 units away, at a shallow angle; its first
distance is below `maxdist`, every step is shorter than 0.25, and the 1000 steps run
out with no distance below `distthres`: the marcher reports MISS. -/
theorem marcher_analytic_agreement_fails :
    (IsNearestIntersection Real.sqrt (RayMarcher.default (F := ℝ)).radius
        ⟨⟨0, 0, 200⟩, ⟨0, 0, -1⟩⟩ ⟨0, 0, 1⟩ ∧
      (RayMarcher.Intersect Real.sqrt (RayMarcher.default (F := ℝ))
        ⟨⟨0, 0, 200⟩, ⟨0, 0, -1⟩⟩).hit = false) ∧
    (IsNearestIntersection Real.sqrt (RayMarcher.default (F := ℝ)).radius
        ⟨⟨-(77 / 125), 0, 4 / 5⟩, ⟨1, 0, 0⟩⟩ ⟨-(3 / 5), 0, 4 / 5⟩ ∧
      (RayMarcher.Intersect Real.sqrt (RayMarcher.default (F := ℝ))
        ⟨⟨-(77 / 125), 0, 4 / 5⟩, ⟨1, 0, 0⟩⟩).hit = true ∧
      (RayMarcher.default (F := ℝ)).distthres
        < Vec3.Length Real.sqrt (Vec3.sub
            (RayMarcher.Intersect Real.sqrt (RayMarcher.default (F := ℝ))
              ⟨⟨-(77 / 125), 0, 4 / 5⟩, ⟨1, 0, 0⟩⟩).point ⟨-(3 / 5), 0, 4 / 5⟩)) ∧
    (IsNearestIntersection Real.sqrt 100000001
        ⟨⟨-21000, 0, 99999999⟩, ⟨1, 0, 0⟩⟩ ⟨-20000, 0, 99999999⟩ ∧
      RayMarcher.sdf Real.sqrt
          { RayMarcher.default (F := ℝ) with
            radius := 100000001, zMin := -100000001, zMax := 100000001 }
          ⟨-21000, 0, 99999999⟩ ≤ 100 ∧
      (RayMarcher.Intersect Real.sqrt
          { RayMarcher.default (F := ℝ) with
            radius := 100000001, zMin := -100000001, zMax := 100000001 }
          ⟨⟨-21000, 0, 99999999⟩, ⟨1, 0, 0⟩⟩).hit = false) := by
  have hn : (toInt (RayMarcher.default (F := ℝ)).maxray).toNat = 999 + 1 := by
    show (toInt (1000 : ℝ)).toNat = 1000
    rw [toInt_thousand]; rfl
  refine ⟨?_, ?_, ?_⟩
  · constructor
    · refine ⟨199, by norm_num, ?_, ?_, ?_⟩
      · rw [normalize_neg_z, Vec3.ext_iff3]
        simp only [Vec3.add, Vec3.scale]
        refine ⟨by norm_num, by norm_num, by norm_num⟩
      · show Vec3.Length Real.sqrt ⟨0, 0, 1⟩ = (1 : ℝ)
        simp [Vec3.Length, Vec3.LengthSquared]
      · intro u hu0 hu
        rw [normalize_neg_z]
        show Vec3.Length Real.sqrt _ ≠ (1 : ℝ)
        intro h
        have hsq := length_mul_self (Vec3.add ⟨0, 0, 200⟩ (Vec3.scale ⟨0, 0, -1⟩ u))
        rw [h] at hsq
        simp only [Vec3.LengthSquared, Vec3.add, Vec3.scale] at hsq
        nlinarith
    · have h200 : RayMarcher.sdf Real.sqrt (RayMarcher.default (F := ℝ)) ⟨0, 0, 200⟩
          = 199 := by
        rw [rayMarcher_sdf_z_axis _ 200 (by norm_num)]
        show (200 : ℝ) - 1 = 199
        norm_num
      unfold RayMarcher.Intersect Intersect
      simp only []
      rw [hn, marchLoop_of_escape _ _ _ _ _ _ _
        (by rw [h200]; show ¬ (199 : ℝ) < 1 / 100; norm_num)
        (by rw [h200]; show (100 : ℝ) < 199; norm_num)]
  · have hlen : Real.sqrt (15929 / 15625) < 101 / 100 := by
      rw [Real.sqrt_lt' (by norm_num)]
      norm_num
    have ho : RayMarcher.sdf Real.sqrt (RayMarcher.default (F := ℝ))
        ⟨-(77 / 125), 0, 4 / 5⟩ = Real.sqrt (15929 / 15625) - 1 := by
      rw [rayMarcher_sdf_eq]
      show Real.sqrt _ - (1 : ℝ) = _
      norm_num
    have hI : RayMarcher.Intersect Real.sqrt (RayMarcher.default (F := ℝ))
        ⟨⟨-(77 / 125), 0, 4 / 5⟩, ⟨1, 0, 0⟩⟩ = ⟨true, ⟨-(77 / 125), 0, 4 / 5⟩, 1⟩ := by
      unfold RayMarcher.Intersect Intersect
      simp only []
      rw [hn, marchLoop_of_hit _ _ _ _ _ _ _
        (by rw [ho]; show Real.sqrt (15929 / 15625) - 1 < (1 / 100 : ℝ); linarith)]
    refine ⟨?_, ?_, ?_⟩
    · refine ⟨2 / 125, by norm_num, ?_, ?_, ?_⟩
      · rw [normalize_pos_x, Vec3.ext_iff3]
        simp only [Vec3.add, Vec3.scale]
        refine ⟨by norm_num, by norm_num, by norm_num⟩
      · show Vec3.Length Real.sqrt ⟨-(3 / 5), 0, 4 / 5⟩ = (1 : ℝ)
        unfold Vec3.Length Vec3.LengthSquared
        rw [show (-(3 / 5) * -(3 / 5) + 0 * 0 + 4 / 5 * (4 / 5) : ℝ) = 1 by norm_num]
        exact Real.sqrt_one
      · intro u hu0 hu
        rw [normalize_pos_x]
        show Vec3.Length Real.sqrt _ ≠ (1 : ℝ)
        intro h
        have hsq := length_mul_self (Vec3.add ⟨-(77 / 125), 0, 4 / 5⟩ (Vec3.scale ⟨1, 0, 0⟩ u))
        rw [h] at hsq
        simp only [Vec3.LengthSquared, Vec3.add, Vec3.scale] at hsq
        nlinarith
    · rw [hI]
    · rw [hI]
      show (1 / 100 : ℝ) < Vec3.Length Real.sqrt _
      have : Vec3.Length Real.sqrt (Vec3.sub (⟨-(77 / 125), 0, 4 / 5⟩ : Vec3 ℝ)
          ⟨-(3 / 5), 0, 4 / 5⟩) = 2 / 125 := by
        unfold Vec3.Length Vec3.LengthSquared Vec3.sub
        rw [show ((-(77 / 125) - -(3 / 5)) * (-(77 / 125) - -(3 / 5)) + (0 - 0) * (0 - 0)
          + (4 / 5 - 4 / 5) * (4 / 5 - 4 / 5) : ℝ) = 2 / 125 * (2 / 125) by norm_num]
        exact Real.sqrt_mul_self (by norm_num)
      rw [this]
      norm_num
  · have hbig : ∀ t : ℝ, 0 ≤ t → t ≤ 250 →
        (1 / 100 : ℝ) ≤ RayMarcher.sdf Real.sqrt
            { RayMarcher.default (F := ℝ) with
              radius := 100000001, zMin := -100000001, zMax := 100000001 }
            (Vec3.add ⟨-21000, 0, 99999999⟩ (Vec3.scale ⟨1, 0, 0⟩ t)) ∧
        RayMarcher.sdf Real.sqrt
            { RayMarcher.default (F := ℝ) with
              radius := 100000001, zMin := -100000001, zMax := 100000001 }
            (Vec3.add ⟨-21000, 0, 99999999⟩ (Vec3.scale ⟨1, 0, 0⟩ t)) ≤ 1 / 4 := by
      intro t ht0 ht
      rw [rayMarcher_sdf_eq]
      simp only [Vec3.add, Vec3.scale]
      show (1 / 100 : ℝ) ≤ Real.sqrt _ - 100000001 ∧ Real.sqrt _ - 100000001 ≤ 1 / 4
      constructor
      · have : (100000001 + 1 / 100 : ℝ) ≤ Real.sqrt ((-21000 + 1 * t) * (-21000 + 1 * t)
            + (0 + 0 * t) * (0 + 0 * t) + (99999999 + 0 * t) * (99999999 + 0 * t)) := by
          apply Real.le_sqrt_of_sq_le
          nlinarith
        linarith
      · have : Real.sqrt ((-21000 + 1 * t) * (-21000 + 1 * t)
            + (0 + 0 * t) * (0 + 0 * t) + (99999999 + 0 * t) * (99999999 + 0 * t))
            ≤ 100000001 + 1 / 4 := by
          rw [Real.sqrt_le_left (by norm_num)]
          nlinarith
        linarith
    refine ⟨?_, ?_, ?_⟩
    · refine ⟨1000, by norm_num, ?_, ?_, ?_⟩
      · rw [normalize_pos_x, Vec3.ext_iff3]
        simp only [Vec3.add, Vec3.scale]
        refine ⟨by norm_num, by norm_num, by norm_num⟩
      · unfold Vec3.Length Vec3.LengthSquared
        rw [show (-20000 * -20000 + 0 * 0 + 99999999 * 99999999 : ℝ)
          = 100000001 * 100000001 by norm_num]
        exact Real.sqrt_mul_self (by norm_num)
      · intro u hu0 hu
        rw [normalize_pos_x]
        intro h
        have hsq := length_mul_self (Vec3.add ⟨-21000, 0, 99999999⟩ (Vec3.scale ⟨1, 0, 0⟩ u))
        rw [h] at hsq
        simp only [Vec3.LengthSquared, Vec3.add, Vec3.scale] at hsq
        nlinarith
    · have h := (hbig 0 (le_refl 0) (by norm_num)).2
      rw [add_scale_zero] at h
      linarith
    · unfold RayMarcher.Intersect Intersect
      simp only [normalize_pos_x]
      have hn' : (toInt (1000 : ℝ)).toNat = 1000 := by rw [toInt_thousand]; rfl
      show (marchLoop _ _ (1 / 100 : ℝ) (100 : ℝ) (toInt (1000 : ℝ)).toNat _ 0).hit = false
      rw [hn', ← add_scale_zero (⟨-21000, 0, 99999999⟩ : Vec3 ℝ) ⟨1, 0, 0⟩]
      exact marchLoop_miss_of_slow _ _ _ (1 / 100) 100 (1 / 4) 250 (by norm_num)
        (by norm_num) hbig 1000 0 0 (le_refl 0) (by norm_num)

end SphereAnalytic

section Repetition

theorem toInt_of_abs_lt_one {F : Type} [LinearOrderedField F] [FloorRing F] (x : F)
    (h : |x| < 1) : toInt x = 0 := by
  obtain ⟨h1, h2⟩ := abs_lt.mp h
  unfold toInt
  split_ifs with h0
  · exact Int.floor_eq_zero_iff.mpr ⟨h0, h2⟩
  · rw [Int.ceil_eq_iff]
    push_neg at h0
    constructor
    · simpa using h1
    · simpa using le_of_lt h0

theorem fmod_of_abs_lt {F : Type} [LinearOrderedField F] [FloorRing F] (x c : F)
    (h : |x / c| < 1) : fmod x c = x := by
  unfold fmod
  rw [toInt_of_abs_lt_one _ h]
  simp

/-- C7, the code at a point on the negative side: with the scene's period
`(3.5, 3.5, 3.5)` and the unit sphere at the origin, `opRep` at `(-3, 0, 0)` is 2 (the
point is handed to the sphere unfolded, `fmod` keeping the sign of its first argument),
while one period further along x, at `(0.5, 0, 0)`, it is `-0.5`. -/
theorem opRep_not_periodic_on_negative_side :
    opRep (⟨-3, 0, 0⟩ : Vec3 ℝ) ⟨7 / 2, 7 / 2, 7 / 2⟩
        (Sphere.sdf Real.sqrt (Sphere.new ⟨0, 0, 0⟩ 1)) = 2 ∧
    opRep (⟨-3 + 1 * (7 / 2), 0 + 0 * (7 / 2), 0 + 0 * (7 / 2)⟩ : Vec3 ℝ)
        ⟨7 / 2, 7 / 2, 7 / 2⟩ (Sphere.sdf Real.sqrt (Sphere.new ⟨0, 0, 0⟩ 1)) = -(1 / 2) := by
  have f1 : fmod (-3 + 1 / 2 * (7 / 2) : ℝ) (7 / 2) = -3 + 1 / 2 * (7 / 2) :=
    fmod_of_abs_lt _ _ (by rw [abs_lt]; constructor <;> norm_num)
  have f2 : fmod (0 + 1 / 2 * (7 / 2) : ℝ) (7 / 2) = 0 + 1 / 2 * (7 / 2) :=
    fmod_of_abs_lt _ _ (by rw [abs_lt]; constructor <;> norm_num)
  have f3 : fmod (-3 + 1 * (7 / 2) + 1 / 2 * (7 / 2) : ℝ) (7 / 2)
      = -3 + 1 * (7 / 2) + 1 / 2 * (7 / 2) :=
    fmod_of_abs_lt _ _ (by rw [abs_lt]; constructor <;> norm_num)
  have f4 : fmod (0 + 0 * (7 / 2) + 1 / 2 * (7 / 2) : ℝ) (7 / 2)
      = 0 + 0 * (7 / 2) + 1 / 2 * (7 / 2) :=
    fmod_of_abs_lt _ _ (by rw [abs_lt]; constructor <;> norm_num)
  constructor
  · unfold opRep opRepPoint
    simp only [f1, f2]
    unfold Sphere.sdf Sphere.new Vec3.Length Vec3.LengthSquared Vec3.sub
    simp only []
    rw [show ((-3 + 1 / 2 * (7 / 2) - 1 / 2 * (7 / 2) - 0)
        * (-3 + 1 / 2 * (7 / 2) - 1 / 2 * (7 / 2) - 0)
        + (0 + 1 / 2 * (7 / 2) - 1 / 2 * (7 / 2) - 0) * (0 + 1 / 2 * (7 / 2) - 1 / 2 * (7 / 2) - 0)
        + (0 + 1 / 2 * (7 / 2) - 1 / 2 * (7 / 2) - 0) * (0 + 1 / 2 * (7 / 2) - 1 / 2 * (7 / 2) - 0)
        : ℝ) = 3 * 3 by norm_num, Real.sqrt_mul_self (by norm_num)]
    norm_num
  · unfold opRep opRepPoint
    simp only [f3, f4]
    unfold Sphere.sdf Sphere.new Vec3.Length Vec3.LengthSquared Vec3.sub
    simp only []
    rw [show ((-3 + 1 * (7 / 2) + 1 / 2 * (7 / 2) - 1 / 2 * (7 / 2) - 0)
        * (-3 + 1 * (7 / 2) + 1 / 2 * (7 / 2) - 1 / 2 * (7 / 2) - 0)
        + (0 + 0 * (7 / 2) + 1 / 2 * (7 / 2) - 1 / 2 * (7 / 2) - 0)
          * (0 + 0 * (7 / 2) + 1 / 2 * (7 / 2) - 1 / 2 * (7 / 2) - 0)
        + (0 + 0 * (7 / 2) + 1 / 2 * (7 / 2) - 1 / 2 * (7 / 2) - 0)
          * (0 + 0 * (7 / 2) + 1 / 2 * (7 / 2) - 1 / 2 * (7 / 2) - 0)
        : ℝ) = 1 / 2 * (1 / 2) by norm_num, Real.sqrt_mul_self (by norm_num)]
    norm_num

theorem fmod_add_nat_mul {F : Type} [LinearOrderedField F] [FloorRing F] (x c : F) (k : Nat)
    (hc : 0 < c) (hx : 0 ≤ x) : fmod (x + k * c) c = fmod x c := by
  have h1 : (x + k * c) / c = x / c + k := by field_simp
  have h2 : 0 ≤ x / c := div_nonneg hx (le_of_lt hc)
  have h3 : 0 ≤ x / c + (k : F) := add_nonneg h2 (Nat.cast_nonneg k)
  unfold fmod toInt
  rw [h1, if_pos h2, if_pos h3, Int.floor_add_nat]
  push_cast
  ring

/-- Where the repetition is periodic: on the side where every `p + c/2` coordinate is
non-negative, moving by whole cells in the positive directions does not change
`opRep`. -/
theorem opRep_periodic_nonneg {F : Type} [LinearOrderedField F] [FloorRing F]
    (p c : Vec3 F) (kx ky kz : Nat) (obj : Vec3 F → F)
    (hc : 0 < c.x ∧ 0 < c.y ∧ 0 < c.z)
    (hp : 0 ≤ p.x + 1 / 2 * c.x ∧ 0 ≤ p.y + 1 / 2 * c.y ∧ 0 ≤ p.z + 1 / 2 * c.z) :
    opRep ⟨p.x + kx * c.x, p.y + ky * c.y, p.z + kz * c.z⟩ c obj = opRep p c obj := by
  unfold opRep opRepPoint
  simp only []
  have ex : p.x + kx * c.x + 1 / 2 * c.x = p.x + 1 / 2 * c.x + kx * c.x := by ring
  have ey : p.y + ky * c.y + 1 / 2 * c.y = p.y + 1 / 2 * c.y + ky * c.y := by ring
  have ez : p.z + kz * c.z + 1 / 2 * c.z = p.z + 1 / 2 * c.z + kz * c.z := by ring
  rw [ex, ey, ez, fmod_add_nat_mul _ _ _ hc.1 hp.1, fmod_add_nat_mul _ _ _ hc.2.1 hp.2.1,
    fmod_add_nat_mul _ _ _ hc.2.2 hp.2.2]

end Repetition

section TorusFold

theorem torus_sdf_unfold {F : Type} [LinearOrderedField F] [FloorRing F]
    (sqrt cos sin radians : F → F) (inverse : Mat4 F → Mat4 F) (s : SceneObject F)
    (p : Vec3 F) :
    Torus.sdf sqrt cos sin radians inverse s p
      = torusDistance sqrt s.t
          (Mat4.transformPoint
            (inverse (glmRotate sqrt cos sin 1 (radians s.angleRotate) s.rotation)) p) := by
  unfold Torus.sdf torusDistance Vec2.length
  rfl

/-- C8, as the code has it: `Torus::sdf(p)` is the torus distance of the point `p`
itself, unfolded, taken into the object frame by `inverse(M)`; the point folded into
the period-(4,4,4) cell is computed and not used. -/
theorem torus_sdf_is_unfolded_distance {F : Type} [LinearOrderedField F] [FloorRing F]
    (sqrt cos sin radians : F → F) (inverse : Mat4 F → Mat4 F) (s : SceneObject F)
    (p : Vec3 F) :
    Torus.sdf sqrt cos sin radians inverse s p
      = torusDistance sqrt s.t
          (Mat4.transformPoint
            (inverse (glmRotate sqrt cos sin 1 (radians s.angleRotate) s.rotation)) p) :=
  torus_sdf_unfold sqrt cos sin radians inverse s p

/-- The rotation about the x axis built by `glm::rotate`. -/
theorem glmRotate_x_axis (a : ℝ) :
    glmRotate Real.sqrt Real.cos Real.sin 1 a ⟨1, 0, 0⟩
      = !![1, 0, 0, 0;
           0, Real.cos a, -Real.sin a, 0;
           0, Real.sin a, Real.cos a, 0;
           0, 0, 0, 1] := by
  unfold glmRotate
  simp only [normalize_pos_x, Vec3.lscale, one_mul]
  simp

theorem inverse_rotate_x_axis (a : ℝ) :
    (glmRotate Real.sqrt Real.cos Real.sin 1 a ⟨1, 0, 0⟩)⁻¹
      = !![1, 0, 0, 0;
           0, Real.cos a, Real.sin a, 0;
           0, -Real.sin a, Real.cos a, 0;
           0, 0, 0, 1] := by
  rw [glmRotate_x_axis]
  apply Matrix.inv_eq_left_inv
  have h := Real.cos_sq_add_sin_sq a
  ext i j
  fin_cases i <;> fin_cases j <;>
    simp [Matrix.mul_apply, Fin.sum_univ_four, Matrix.vecHead, Matrix.vecTail] <;>
    nlinarith [h]

/-- A point of the x axis stays where it is under the inverse of a rotation about the
x axis. -/
theorem transformPoint_x_axis (a x : ℝ) :
    Mat4.transformPoint (glmRotate Real.sqrt Real.cos Real.sin 1 a ⟨1, 0, 0⟩)⁻¹ ⟨x, 0, 0⟩
      = ⟨x, 0, 0⟩ := by
  rw [inverse_rotate_x_axis]
  unfold Mat4.transformPoint
  rw [Vec3.ext_iff3]
  simp [Matrix.mulVec, Matrix.dotProduct, Fin.sum_univ_four]

/-- C8 fails as stated: for the torus `Torus((0,0,0), (1, 0.5))` with the default
rotation axis `(1, 0, 0)` and the default `angleRotate = 60`, the sdf at `(0, 0, 0)` is
`0.5` and the sdf at `(0, 0, 0) + (4, 0, 0)` is `2.5`. -/
theorem torus_sdf_not_fold_invariant :
    Torus.sdf Real.sqrt Real.cos Real.sin (fun d => d * (Real.pi / 180)) (fun M => M⁻¹)
        (Torus.new ⟨0, 0, 0⟩ ⟨1, 1 / 2⟩) ⟨0, 0, 0⟩ = 1 / 2 ∧
    Torus.sdf Real.sqrt Real.cos Real.sin (fun d => d * (Real.pi / 180)) (fun M => M⁻¹)
        (Torus.new ⟨0, 0, 0⟩ ⟨1, 1 / 2⟩) ⟨0 + 4, 0, 0⟩ = 5 / 2 := by
  constructor
  · rw [torus_sdf_unfold]
    show torusDistance Real.sqrt ⟨1, 1 / 2⟩ (Mat4.transformPoint
      (glmRotate Real.sqrt Real.cos Real.sin 1 _ ⟨1, 0, 0⟩)⁻¹ ⟨0, 0, 0⟩) = 1 / 2
    rw [transformPoint_x_axis]
    unfold torusDistance
    simp only []
    rw [show (0 * 0 + 0 * 0 : ℝ) = 0 by norm_num, Real.sqrt_zero,
      show ((0 - 1) * (0 - 1) + 0 * 0 : ℝ) = 1 by norm_num, Real.sqrt_one]
    norm_num
  · rw [torus_sdf_unfold]
    show torusDistance Real.sqrt ⟨1, 1 / 2⟩ (Mat4.transformPoint
      (glmRotate Real.sqrt Real.cos Real.sin 1 _ ⟨1, 0, 0⟩)⁻¹ ⟨0 + 4, 0, 0⟩) = 5 / 2
    rw [transformPoint_x_axis]
    unfold torusDistance
    simp only []
    rw [show ((0 + 4) * (0 + 4) + 0 * 0 : ℝ) = 4 * 4 by norm_num,
      Real.sqrt_mul_self (by norm_num),
      show ((4 - 1) * (4 - 1) + 0 * 0 : ℝ) = 3 * 3 by norm_num,
      Real.sqrt_mul_self (by norm_num)]
    norm_num

end TorusFold

section WaterPoolBounds

variable {F : Type} [LinearOrderedField F]

/-- C11: with amplitude 0, whatever the frequency, the octave count and the values of
the noise function, `WaterPool::sdf(p)` is `p.y - located.y = p.y + 2`. -/
theorem waterpool_sdf_zero_amplitude (Noise : Vec3 F → F) (w : WaterPool F) (p : Vec3 F) :
    WaterPool.sdf Noise { w with amplitude := 0 } p = p.y - -2 ∧
    WaterPool.sdf Noise { w with amplitude := 0 } p = p.y + 2 := by
  have h : WaterPool.sdf Noise { w with amplitude := 0 } p = p.y + 2 := by
    unfold WaterPool.sdf
    simp only [noiseLoop_eq_sum, zero_add, zero_div, zero_mul, Finset.sum_const_zero]
    ring
  exact ⟨by rw [h]; ring, h⟩

theorem geometric_half_sum (n : Nat) :
    ∑ i in Finset.range n, (1 : F) / 2 ^ (i + 1) = 1 - 1 / 2 ^ n := by
  induction n with
  | zero => simp
  | succ k ih =>
    rw [Finset.sum_range_succ, ih, pow_succ]
    field_simp
    ring

theorem noise_sum_abs_le (Noise : Vec3 F → F) (hN : ∀ q, |Noise q| ≤ 1) (a f : F)
    (p : Vec3 F) (n : Nat) :
    |∑ i in Finset.range n, a / 2 ^ (i + 1) * Noise (Vec3.lscale (f * 2 ^ i) p)|
      ≤ |a| * (1 - 1 / 2 ^ n) := by
  calc |∑ i in Finset.range n, a / 2 ^ (i + 1) * Noise (Vec3.lscale (f * 2 ^ i) p)|
      ≤ ∑ i in Finset.range n, |a / 2 ^ (i + 1) * Noise (Vec3.lscale (f * 2 ^ i) p)| :=
        Finset.abs_sum_le_sum_abs _ _
    _ ≤ ∑ i in Finset.range n, |a| * (1 / 2 ^ (i + 1)) := by
        apply Finset.sum_le_sum
        intro i _
        have hpos : (0 : F) < 2 ^ (i + 1) := pow_pos (by norm_num) _
        rw [abs_mul, abs_div, abs_of_pos hpos]
        have h1 : |a| / 2 ^ (i + 1) = |a| * (1 / 2 ^ (i + 1)) := by ring
        rw [h1]
        have h2 : 0 ≤ |a| * (1 / 2 ^ (i + 1)) :=
          mul_nonneg (abs_nonneg a) (le_of_lt (div_pos one_pos hpos))
        calc |a| * (1 / 2 ^ (i + 1)) * |Noise (Vec3.lscale (f * 2 ^ i) p)|
            ≤ |a| * (1 / 2 ^ (i + 1)) * 1 := mul_le_mul_of_nonneg_left (hN _) h2
          _ = |a| * (1 / 2 ^ (i + 1)) := mul_one _
    _ = |a| * (1 - 1 / 2 ^ n) := by
        rw [← Finset.mul_sum, geometric_half_sum]

/-- C17: if the noise function is bounded by 1 in absolute value, the water surface is
displaced from the plane `y = -2` by at most `|a| (1 - 2^(-n))`, which is less than
`|a|` when `a` is not 0; so a point with `sdf = 0` lies strictly between the planes
`y = -2 - |a|` and `y = -2 + |a|`.  Here `a` is the amplitude and `n` the octave
count. -/
theorem waterpool_displacement_bounded (Noise : Vec3 F → F) (hN : ∀ q, |Noise q| ≤ 1)
    (w : WaterPool F) (p : Vec3 F) :
    |WaterPool.sdf Noise w p - (p.y + 2)|
        ≤ |w.amplitude| * (1 - 1 / 2 ^ w.octave.toNat) ∧
    (w.amplitude ≠ 0 → |w.amplitude| * (1 - 1 / 2 ^ w.octave.toNat) < |w.amplitude|) ∧
    (w.amplitude ≠ 0 → WaterPool.sdf Noise w p = 0 →
        -2 - |w.amplitude| < p.y ∧ p.y < -2 + |w.amplitude|) := by
  have hb : |WaterPool.sdf Noise w p - (p.y + 2)|
      ≤ |w.amplitude| * (1 - 1 / 2 ^ w.octave.toNat) := by
    have e : WaterPool.sdf Noise w p - (p.y + 2)
        = -(∑ i in Finset.range w.octave.toNat,
            w.amplitude / 2 ^ (i + 1) * Noise (Vec3.lscale (w.frequency * 2 ^ i) p)) := by
      unfold WaterPool.sdf
      simp only [noiseLoop_eq_sum, zero_add]
      ring
    rw [e, abs_neg]
    exact noise_sum_abs_le Noise hN _ _ _ _
  have hlt : w.amplitude ≠ 0 →
      |w.amplitude| * (1 - 1 / 2 ^ w.octave.toNat) < |w.amplitude| := by
    intro ha
    have hpos : (0 : F) < 1 / 2 ^ w.octave.toNat := div_pos one_pos (pow_pos (by norm_num) _)
    have habs : 0 < |w.amplitude| := abs_pos.mpr ha
    nlinarith
  refine ⟨hb, hlt, ?_⟩
  intro ha h0
  have h1 := lt_of_le_of_lt hb (hlt ha)
  rw [h0, zero_sub, abs_neg, abs_lt] at h1
  constructor <;> linarith [h1.1, h1.2]

/-- The default water pool (amplitude 3, frequency 0.08, 8 octaves) under the constant
noise 1: the displacement bound is below the amplitude. -/
theorem waterpool_displacement_bounded_witness :
    |WaterPool.sdf (F := ℚ) (fun _ => 1)
        ⟨1, -1, 1, 360, 1000, 1 / 100, 100, 1 / 100, 3, 2 / 25, 8⟩ ⟨0, 0, 0⟩ - (0 + 2)|
      ≤ |(3 : ℚ)| * (1 - 1 / 2 ^ 8) ∧
    |(3 : ℚ)| * (1 - 1 / 2 ^ 8) < |(3 : ℚ)| := by
  have h := waterpool_displacement_bounded (F := ℚ) (fun _ => 1)
    (fun _ => by simp) ⟨1, -1, 1, 360, 1000, 1 / 100, 100, 1 / 100, 3, 2 / 25, 8⟩ ⟨0, 0, 0⟩
  exact ⟨h.1, h.2.1 (by norm_num)⟩

end WaterPoolBounds

section DirectionScale

theorem normalize_lscale (d : Vec3 ℝ) (k : ℝ) (hk : 0 < k) :
    Vec3.Normalize Real.sqrt (Vec3.lscale k d) = Vec3.Normalize Real.sqrt d := by
  have hL : Vec3.Length Real.sqrt (Vec3.lscale k d) = k * Vec3.Length Real.sqrt d := by
    unfold Vec3.Length
    have e : Vec3.LengthSquared (Vec3.lscale k d) = k * k * Vec3.LengthSquared d := by
      simp only [Vec3.LengthSquared, Vec3.lscale]
      ring
    rw [e, Real.sqrt_mul (mul_self_nonneg k), Real.sqrt_mul_self (le_of_lt hk)]
  have hk0 : k ≠ 0 := ne_of_gt hk
  have hinv : k * (1 / (k * Vec3.Length Real.sqrt d)) = 1 / Vec3.Length Real.sqrt d := by
    rw [one_div, mul_inv, ← mul_assoc, mul_inv_cancel₀ hk0, one_mul, one_div]
  unfold Vec3.Normalize
  simp only [hL]
  rw [Vec3.ext_iff3]
  simp only [Vec3.lscale]
  refine ⟨?_, ?_, ?_⟩
  · rw [mul_comm k d.x, mul_assoc, hinv]
  · rw [mul_comm k d.y, mul_assoc, hinv]
  · rw [mul_comm k d.z, mul_assoc, hinv]

/-- C15: the marcher normalises the direction itself: for every origin `o`, direction
`d`, scale `k > 0` and every sdf and configuration, `Intersect` on the ray `(o, k d)`
gives the same verdict and the same point (and makes the same number of sdf
evaluations) as on the ray `(o, d)`. -/
theorem intersect_direction_scale_invariant (sdf : Vec3 ℝ → ℝ)
    (maxray distthres maxdist : ℝ) (o d : Vec3 ℝ) (k : ℝ) (hk : 0 < k) :
    (Intersect Real.sqrt sdf maxray distthres maxdist ⟨o, Vec3.lscale k d⟩).hit
      = (Intersect Real.sqrt sdf maxray distthres maxdist ⟨o, d⟩).hit ∧
    (Intersect Real.sqrt sdf maxray distthres maxdist ⟨o, Vec3.lscale k d⟩).point
      = (Intersect Real.sqrt sdf maxray distthres maxdist ⟨o, d⟩).point ∧
    Intersect Real.sqrt sdf maxray distthres maxdist ⟨o, Vec3.lscale k d⟩
      = Intersect Real.sqrt sdf maxray distthres maxdist ⟨o, d⟩ := by
  have h : Intersect Real.sqrt sdf maxray distthres maxdist ⟨o, Vec3.lscale k d⟩
      = Intersect Real.sqrt sdf maxray distthres maxdist ⟨o, d⟩ := by
    unfold Intersect
    simp only [normalize_lscale d k hk]
  exact ⟨by rw [h], by rw [h], h⟩

/-- The scenario ray with its direction doubled: the unit sphere is hit at the same
point `(0, 0, 1)`. -/
theorem intersect_direction_scale_invariant_witness :
    (0 : ℝ) < 2 ∧
    (Intersect Real.sqrt (RayMarcher.sdf Real.sqrt (RayMarcher.default (F := ℝ))) 1000
        (1 / 100) 100 ⟨⟨0, 0, 5⟩, Vec3.lscale 2 ⟨0, 0, -1⟩⟩).point = ⟨0, 0, 1⟩ := by
  refine ⟨by norm_num, ?_⟩
  rw [(intersect_direction_scale_invariant
    (RayMarcher.sdf Real.sqrt (RayMarcher.default (F := ℝ))) 1000 (1 / 100) 100
    ⟨0, 0, 5⟩ ⟨0, 0, -1⟩ 2 (by norm_num)).2.1]
  have h := scenario_intersect
  unfold RayMarcher.Intersect at h
  show (Intersect Real.sqrt (RayMarcher.sdf Real.sqrt (RayMarcher.default (F := ℝ)))
    (RayMarcher.default (F := ℝ)).maxray (RayMarcher.default (F := ℝ)).distthres
    (RayMarcher.default (F := ℝ)).maxdist ⟨⟨0, 0, 5⟩, ⟨0, 0, -1⟩⟩).point = ⟨0, 0, 1⟩
  rw [h]

end DirectionScale

section RepetitionCell

/-- C16, the code at a point on the negative side: with the scene's period
`(3.5, 3.5, 3.5)` the point `opRep` hands to the primitive for `(-3, 0, 0)` is
`(-3, 0, 0)` itself, whose x coordinate is below `-c/2 = -1.75`: the point is not
folded into the cell. -/
theorem opRepPoint_outside_cell_on_negative_side :
    opRepPoint (⟨-3, 0, 0⟩ : Vec3 ℝ) ⟨7 / 2, 7 / 2, 7 / 2⟩ = ⟨-3, 0, 0⟩ ∧
    (opRepPoint (⟨-3, 0, 0⟩ : Vec3 ℝ) ⟨7 / 2, 7 / 2, 7 / 2⟩).x < -(1 / 2 * (7 / 2)) := by
  have f1 : fmod (-3 + 1 / 2 * (7 / 2) : ℝ) (7 / 2) = -3 + 1 / 2 * (7 / 2) :=
    fmod_of_abs_lt _ _ (by rw [abs_lt]; constructor <;> norm_num)
  have f2 : fmod (0 + 1 / 2 * (7 / 2) : ℝ) (7 / 2) = 0 + 1 / 2 * (7 / 2) :=
    fmod_of_abs_lt _ _ (by rw [abs_lt]; constructor <;> norm_num)
  have h : opRepPoint (⟨-3, 0, 0⟩ : Vec3 ℝ) ⟨7 / 2, 7 / 2, 7 / 2⟩ = ⟨-3, 0, 0⟩ := by
    unfold opRepPoint
    simp only [f1, f2]
    rw [Vec3.ext_iff3]
    refine ⟨by norm_num, by norm_num, by norm_num⟩
  refine ⟨h, ?_⟩
  rw [h]
  norm_num

theorem fmod_nonneg_range {F : Type} [LinearOrderedField F] [FloorRing F] (x c : F)
    (hc : 0 < c) (hx : 0 ≤ x) : 0 ≤ fmod x c ∧ fmod x c < c := by
  have h2 : 0 ≤ x / c := div_nonneg hx (le_of_lt hc)
  unfold fmod toInt
  rw [if_pos h2]
  have h3 := Int.floor_le (x / c)
  have h4 := Int.lt_floor_add_one (x / c)
  rw [le_div_iff₀ hc] at h3
  rw [div_lt_iff₀ hc] at h4
  constructor <;> linarith

/-- Where the fold does land in the cell: on the side where every `p + c/2` coordinate
is non-negative the point handed to the primitive satisfies `-c/2 <= q < c/2` on each
axis, and it is `p` itself when `p` already lies in the cell. -/
theorem opRepPoint_in_cell_nonneg {F : Type} [LinearOrderedField F] [FloorRing F]
    (p c : Vec3 F) (hc : 0 < c.x ∧ 0 < c.y ∧ 0 < c.z)
    (hp : 0 ≤ p.x + 1 / 2 * c.x ∧ 0 ≤ p.y + 1 / 2 * c.y ∧ 0 ≤ p.z + 1 / 2 * c.z) :
    (-(1 / 2 * c.x) ≤ (opRepPoint p c).x ∧ (opRepPoint p c).x < 1 / 2 * c.x) ∧
    (-(1 / 2 * c.y) ≤ (opRepPoint p c).y ∧ (opRepPoint p c).y < 1 / 2 * c.y) ∧
    (-(1 / 2 * c.z) ≤ (opRepPoint p c).z ∧ (opRepPoint p c).z < 1 / 2 * c.z) ∧
    (p.x < 1 / 2 * c.x → p.y < 1 / 2 * c.y → p.z < 1 / 2 * c.z → opRepPoint p c = p) := by
  have hx := fmod_nonneg_range _ _ hc.1 hp.1
  have hy := fmod_nonneg_range _ _ hc.2.1 hp.2.1
  have hz := fmod_nonneg_range _ _ hc.2.2 hp.2.2
  refine ⟨?_, ?_, ?_, ?_⟩
  · show -(1 / 2 * c.x) ≤ fmod _ _ - _ ∧ fmod _ _ - _ < _
    constructor <;> linarith [hx.1, hx.2]
  · show -(1 / 2 * c.y) ≤ fmod _ _ - _ ∧ fmod _ _ - _ < _
    constructor <;> linarith [hy.1, hy.2]
  · show -(1 / 2 * c.z) ≤ fmod _ _ - _ ∧ fmod _ _ - _ < _
    constructor <;> linarith [hz.1, hz.2]
  · intro h1 h2 h3
    have ax : |(p.x + 1 / 2 * c.x) / c.x| < 1 := by
      rw [abs_of_nonneg (div_nonneg hp.1 (le_of_lt hc.1)), div_lt_one hc.1]
      linarith
    have ay : |(p.y + 1 / 2 * c.y) / c.y| < 1 := by
      rw [abs_of_nonneg (div_nonneg hp.2.1 (le_of_lt hc.2.1)), div_lt_one hc.2.1]
      linarith
    have az : |(p.z + 1 / 2 * c.z) / c.z| < 1 := by
      rw [abs_of_nonneg (div_nonneg hp.2.2 (le_of_lt hc.2.2)), div_lt_one hc.2.2]
      linarith
    unfold opRepPoint
    simp only [fmod_of_abs_lt _ _ ax, fmod_of_abs_lt _ _ ay, fmod_of_abs_lt _ _ az]
    rw [Vec3.ext_iff3]
    refine ⟨by ring, by ring, by ring⟩

end RepetitionCell

section MarcherOutputs

/-- C12: the return value of `Intersect` is the verdict of the marching loop.  On a
HIT with both output slots supplied, `tHit` receives the Euclidean distance of the hit
point from the origin `(0, 0, 0)`, and `isect` receives `ObjectToWorld` applied to the
interaction built at the hit point with error bound `(10 * distthres)` times the
point's coordinates.  On a MISS, or when a slot is null, both slots are left as they
were.  This is the body shared by `RayMarcher::Intersect` and `WaterPool::Intersect`,
for any sdf and default normal. -/
theorem intersect_outputs (coordinateSystem : Vec3 ℝ → Vec3 ℝ × Vec3 ℝ)
    (objectToWorld : SurfaceInteraction ℝ → SurfaceInteraction ℝ) (sdf : Vec3 ℝ → ℝ)
    (defaultNormArg : Vec3 ℝ) (maxray distthres maxdist eps : ℝ) (r : Ray ℝ) (time : ℝ)
    (tHit : Option ℝ) (isect : Option (SurfaceInteraction ℝ)) :
    (IntersectFull Real.sqrt coordinateSystem objectToWorld sdf defaultNormArg maxray
        distthres maxdist eps r time tHit isect).ret
      = (Intersect Real.sqrt sdf maxray distthres maxdist r).hit ∧
    ((Intersect Real.sqrt sdf maxray distthres maxdist r).hit = true →
      tHit ≠ none → isect ≠ none →
      (IntersectFull Real.sqrt coordinateSystem objectToWorld sdf defaultNormArg maxray
          distthres maxdist eps r time tHit isect).tHit
        = some (dist (asEuclidean (Intersect Real.sqrt sdf maxray distthres maxdist r).point)
            (asEuclidean ⟨0, 0, 0⟩)) ∧
      ∃ si : SurfaceInteraction ℝ,
        (IntersectFull Real.sqrt coordinateSystem objectToWorld sdf defaultNormArg maxray
            distthres maxdist eps r time tHit isect).isect = some (objectToWorld si) ∧
        si.p = (Intersect Real.sqrt sdf maxray distthres maxdist r).point ∧
        si.pError
          = ⟨10 * distthres * (Intersect Real.sqrt sdf maxray distthres maxdist r).point.x,
             10 * distthres * (Intersect Real.sqrt sdf maxray distthres maxdist r).point.y,
             10 * distthres * (Intersect Real.sqrt sdf maxray distthres maxdist r).point.z⟩) ∧
    ((Intersect Real.sqrt sdf maxray distthres maxdist r).hit = false ∨ tHit = none ∨
        isect = none →
      (IntersectFull Real.sqrt coordinateSystem objectToWorld sdf defaultNormArg maxray
          distthres maxdist eps r time tHit isect).tHit = tHit ∧
      (IntersectFull Real.sqrt coordinateSystem objectToWorld sdf defaultNormArg maxray
          distthres maxdist eps r time tHit isect).isect = isect) := by
  refine ⟨?_, ?_, ?_⟩
  · unfold IntersectFull
    simp only []
    split_ifs <;> rfl
  · intro hhit ht hi
    have hc : ((Intersect Real.sqrt sdf maxray distthres maxdist r).hit && tHit.isSome
        && isect.isSome) = true := by
      cases tHit with
      | none => exact absurd rfl ht
      | some _ =>
        cases isect with
        | none => exact absurd rfl hi
        | some _ => simp [hhit]
    unfold IntersectFull
    simp only [hc, if_true]
    refine ⟨?_, _, rfl, rfl, rfl⟩
    rw [length_sub_eq_dist]
  · intro h
    have hc : ((Intersect Real.sqrt sdf maxray distthres maxdist r).hit && tHit.isSome
        && isect.isSome) = false := by
      rcases h with h | h | h
      · simp [h]
      · simp [h]
      · simp [h]
    unfold IntersectFull
    simp only [hc]
    exact ⟨rfl, rfl⟩

/-- The scenario ray on the default sphere with both slots supplied: the marcher
travels 4 units along the ray to `(0, 0, 1)` and reports `tHit = 1`, the distance of
that point from the origin. -/
theorem intersect_outputs_witness :
    (RayMarcher.IntersectFull Real.sqrt (fun n => (n, n)) id (RayMarcher.default (F := ℝ))
        ⟨⟨0, 0, 5⟩, ⟨0, 0, -1⟩⟩ 0 (some 0)
        (some ⟨⟨0, 0, 0⟩, ⟨0, 0, 0⟩, ⟨0, 0⟩, ⟨0, 0, 0⟩, ⟨0, 0, 0⟩, ⟨0, 0, 0⟩, ⟨0, 0, 0⟩,
          ⟨0, 0, 0⟩, 0⟩)).tHit = some 1 := by
  have hI := scenario_intersect
  unfold RayMarcher.Intersect at hI
  have hhit : (Intersect Real.sqrt (RayMarcher.sdf Real.sqrt (RayMarcher.default (F := ℝ)))
      (RayMarcher.default (F := ℝ)).maxray (RayMarcher.default (F := ℝ)).distthres
      (RayMarcher.default (F := ℝ)).maxdist ⟨⟨0, 0, 5⟩, ⟨0, 0, -1⟩⟩).hit = true := by
    rw [hI]
  have h := ((intersect_outputs (fun n => (n, n)) id
    (RayMarcher.sdf Real.sqrt (RayMarcher.default (F := ℝ))) ⟨0, 0, 1⟩
    (RayMarcher.default (F := ℝ)).maxray (RayMarcher.default (F := ℝ)).distthres
    (RayMarcher.default (F := ℝ)).maxdist (RayMarcher.default (F := ℝ)).eps
    ⟨⟨0, 0, 5⟩, ⟨0, 0, -1⟩⟩ 0 (some 0)
    (some ⟨⟨0, 0, 0⟩, ⟨0, 0, 0⟩, ⟨0, 0⟩, ⟨0, 0, 0⟩, ⟨0, 0, 0⟩, ⟨0, 0, 0⟩, ⟨0, 0, 0⟩,
      ⟨0, 0, 0⟩, 0⟩)).2.1 hhit (by simp) (by simp)).1
  unfold RayMarcher.IntersectFull
  rw [h, hI, ← length_sub_eq_dist]
  simp [Vec3.Length, Vec3.LengthSquared, Vec3.sub]

end MarcherOutputs

section WorldPosition

theorem glmTranslate_zero : glmTranslate (⟨0, 0, 0⟩ : Vec3 ℝ) = 1 := by
  unfold glmTranslate
  ext i j
  fin_cases i <;> fin_cases j <;> simp [Matrix.one_apply, Matrix.vecHead, Matrix.vecTail]

theorem glmTranslate_neg_zero : glmTranslate (⟨-0, -0, -0⟩ : Vec3 ℝ) = 1 := by
  simp only [neg_zero]
  exact glmTranslate_zero

theorem glmScale_one : glmScale (⟨1, 1, 1⟩ : Vec3 ℝ) = 1 := by
  unfold glmScale
  ext i j
  fin_cases i <;> fin_cases j <;> simp [Matrix.one_apply, Matrix.vecHead, Matrix.vecTail]

/-- The transform of the sphere `Sphere((x, 0, 0), 1)`: the default rotation
`(1, 0, 0)` is a pitch of one degree. -/
theorem getMatrix_sphere_on_x (radians : ℝ → ℝ) (h0 : radians 0 = 0) (x : ℝ) :
    SceneObject.getMatrix Real.cos Real.sin radians (Sphere.new ⟨x, 0, 0⟩ 1)
      = !![1, 0, 0, x;
           0, Real.cos (radians 1), -Real.sin (radians 1), 0;
           0, Real.sin (radians 1), Real.cos (radians 1), 0;
           0, 0, 0, 1] := by
  have hR : SceneObject.getRotateMatrix Real.cos Real.sin radians (Sphere.new ⟨x, 0, 0⟩ 1)
      = !![1, 0, 0, 0;
           0, Real.cos (radians 1), -Real.sin (radians 1), 0;
           0, Real.sin (radians 1), Real.cos (radians 1), 0;
           0, 0, 0, 1] := by
    unfold SceneObject.getRotateMatrix glmEulerAngleYXZ Sphere.new
    simp only [h0, Real.cos_zero, Real.sin_zero]
    simp
  unfold SceneObject.getMatrix
  simp only [hR]
  unfold SceneObject.getScaleMatrix SceneObject.getTranslateMatrix Sphere.new
  simp only [glmTranslate_zero, glmTranslate_neg_zero, glmScale_one, mul_one]
  unfold glmTranslate
  ext i j
  fin_cases i <;> fin_cases j <;>
    simp [Matrix.mul_apply, Fin.sum_univ_four, Matrix.vecHead, Matrix.vecTail]

theorem inverse_getMatrix_sphere_on_x (radians : ℝ → ℝ) (h0 : radians 0 = 0) (x : ℝ) :
    (SceneObject.getMatrix Real.cos Real.sin radians (Sphere.new ⟨x, 0, 0⟩ 1))⁻¹
      = !![1, 0, 0, -x;
           0, Real.cos (radians 1), Real.sin (radians 1), 0;
           0, -Real.sin (radians 1), Real.cos (radians 1), 0;
           0, 0, 0, 1] := by
  rw [getMatrix_sphere_on_x radians h0]
  apply Matrix.inv_eq_left_inv
  have h := Real.cos_sq_add_sin_sq (radians 1)
  ext i j
  fin_cases i <;> fin_cases j <;>
    simp [Matrix.mul_apply, Fin.sum_univ_four, Matrix.vecHead, Matrix.vecTail] <;>
    nlinarith [h]

theorem getPosition_sphere_on_x (radians : ℝ → ℝ) (h0 : radians 0 = 0) (x : ℝ) :
    SceneObject.getPosition Real.cos Real.sin radians (Sphere.new ⟨x, 0, 0⟩ 1)
      = ⟨x, 0, 0⟩ := by
  unfold SceneObject.getPosition
  rw [getMatrix_sphere_on_x radians h0]
  unfold Mat4.transformPoint
  rw [Vec3.ext_iff3]
  simp [Matrix.mulVec, Matrix.dotProduct, Fin.sum_univ_four]

theorem setPosition_sphere_on_x (radians : ℝ → ℝ) (h0 : radians 0 = 0) (x : ℝ) :
    SceneObject.setPosition Real.cos Real.sin radians (fun M => M⁻¹)
      (Sphere.new ⟨x, 0, 0⟩ 1) ⟨x, 0, 0⟩ = Sphere.new ⟨0, 0, 0⟩ 1 := by
  unfold SceneObject.setPosition
  simp only [inverse_getMatrix_sphere_on_x radians h0]
  have : Mat4.transformPoint
      (!![1, 0, 0, -x;
         0, Real.cos (radians 1), Real.sin (radians 1), 0;
         0, -Real.sin (radians 1), Real.cos (radians 1), 0;
         0, 0, 0, 1] : Mat4 ℝ) ⟨x, 0, 0⟩ = ⟨0, 0, 0⟩ := by
    unfold Mat4.transformPoint
    rw [Vec3.ext_iff3]
    simp [Matrix.mulVec, Matrix.dotProduct, Fin.sum_univ_four]
  rw [this]
  rfl

/-- C13, the code at a concrete object: the sphere `Sphere((1, 0, 0), 1)` reports the
world position `(1, 0, 0)`; after `setPosition((1, 0, 0))`, the position it already has,
its `position` member is `(0, 0, 0)` and `getPosition()` returns `(0, 0, 0)`. -/
theorem setPosition_getPosition_moves_object :
    SceneObject.getPosition Real.cos Real.sin (fun d => d * (Real.pi / 180))
        (Sphere.new ⟨1, 0, 0⟩ 1) = ⟨1, 0, 0⟩ ∧
    (SceneObject.setPosition Real.cos Real.sin (fun d => d * (Real.pi / 180))
        (fun M => M⁻¹) (Sphere.new ⟨1, 0, 0⟩ 1) ⟨1, 0, 0⟩).position = ⟨0, 0, 0⟩ ∧
    SceneObject.getPosition Real.cos Real.sin (fun d => d * (Real.pi / 180))
        (SceneObject.setPosition Real.cos Real.sin (fun d => d * (Real.pi / 180))
          (fun M => M⁻¹) (Sphere.new ⟨1, 0, 0⟩ 1) ⟨1, 0, 0⟩) = ⟨0, 0, 0⟩ := by
  have h0 : (fun d : ℝ => d * (Real.pi / 180)) 0 = 0 := by simp
  refine ⟨getPosition_sphere_on_x _ h0 1, ?_, ?_⟩
  · rw [setPosition_sphere_on_x _ h0 1]; rfl
  · rw [setPosition_sphere_on_x _ h0 1]; exact getPosition_sphere_on_x _ h0 0

end WorldPosition

section TargetLight

/-- C14, as the code has it: a newly constructed light is not a target, and `draw`
keeps the flag `btarget` and leaves a light whose `btarget` is true with intensity 0.
The intensity is forced to zero by `draw` only, so the invariant holds right after
construction and right after each call of `draw`. -/
theorem light_target_intensity_zero_after_draw {F : Type} [Field F]
    (cos sin radians atan : F → F) (l : Light F) (targetPosition : Vec3 F)
    (intense : F) (pos : Vec3 F) (spot : Bool) (pointAt0 : Vec3 F) :
    (Light.new intense pos spot pointAt0).btarget = false ∧
    (Light.draw cos sin radians atan l targetPosition).btarget = l.btarget ∧
    ((Light.draw cos sin radians atan l targetPosition).btarget = true →
      (Light.draw cos sin radians atan l targetPosition).intensity = 0) ∧
    (l.btarget = false →
      (Light.draw cos sin radians atan l targetPosition).intensity = l.intensity) := by
  refine ⟨rfl, ?_, ?_, ?_⟩
  · unfold Light.draw
    simp only []
    split_ifs <;> rfl
  · unfold Light.draw
    simp only []
    split_ifs with h1 h2 h3
    · intro _; rfl
    · intro _; rfl
    · intro h; exact absurd h h1
    · intro h; exact absurd h h1
  · intro hb
    have hn : ¬ (l.btarget = true) := by simp [hb]
    unfold Light.draw
    simp only [if_neg hn]
    split_ifs <;> rfl

/-- A target light of intensity 75: after `draw` its intensity is 0. -/
theorem light_target_intensity_zero_after_draw_witness :
    (Light.draw (F := ℚ) id id id id
      { Light.new 75 ⟨0, 0, 0⟩ false ⟨0, 0, 0⟩ with btarget := true } ⟨0, 0, 0⟩).intensity
      = 0 :=
  (light_target_intensity_zero_after_draw (F := ℚ) id id id id
    { Light.new 75 ⟨0, 0, 0⟩ false ⟨0, 0, 0⟩ with btarget := true } ⟨0, 0, 0⟩
    75 ⟨0, 0, 0⟩ false ⟨0, 0, 0⟩).2.2.1 rfl

/-- C14 fails as stated: the light built by `Light(75, (0,0,0), false)` and then
assigned `btarget = true` is reachable, is a target, and has intensity 75. -/
theorem light_target_invariant_fails :
    Light.Reachable Real.cos Real.sin (fun d => d * (Real.pi / 180)) Real.arctan
        (fun M => M⁻¹)
        { Light.new (75 : ℝ) ⟨0, 0, 0⟩ false ⟨0, 0, 0⟩ with btarget := true } ∧
    ({ Light.new (75 : ℝ) ⟨0, 0, 0⟩ false ⟨0, 0, 0⟩ with btarget := true } : Light ℝ).btarget
      = true ∧
    ({ Light.new (75 : ℝ) ⟨0, 0, 0⟩ false ⟨0, 0, 0⟩ with btarget := true } : Light ℝ).intensity
      ≠ 0 := by
  refine ⟨?_, rfl, ?_⟩
  · exact Light.Reachable.assignBtarget _ true (Light.Reachable.construct 75 ⟨0, 0, 0⟩ false
      ⟨0, 0, 0⟩)
  · show (75 : ℝ) ≠ 0
    norm_num

end TargetLight
